import Mathlib

/-! # Transferwise client: timestamp codec, request builder, executor, rates accessor

A shallow embedding of `time.go`, `client.go` and `rates.go`.  Go strings and byte
slices are lists of byte values; a Go call that may panic returns a `Run`; Go multiple
return values `(x, err)` are pairs whose components may be `none` (Go `nil`).
-/

namespace Transferwise

set_option linter.dupNamespace false

/-- Go strings and byte slices: sequences of byte values. -/
abbrev Bytes := List Nat

/-- The bytes of an ASCII literal. -/
def ascii (s : String) : Bytes := s.toList.map Char.toNat

/-- Result of running Go code: a run-time fault (panic) or a normal return. -/
inductive Run (α : Type) where
  | fault : Run α
  | done : α → Run α
  deriving DecidableEq, Repr

/-- The Go slice expression `s[lo:hi]` on a string; the indices are Go `int`s.
It faults unless `0 ≤ lo ≤ hi ≤ len(s)`. -/
def sliceBytes (s : Bytes) (lo hi : Int) : Run Bytes :=
  if 0 ≤ lo ∧ lo ≤ hi ∧ hi ≤ (s.length : Int) then
    .done ((s.drop lo.toNat).take (hi.toNat - lo.toNat))
  else .fault

/-! ## time.go -/

/-- The constant `time.RFC3339`. -/
def RFC3339 : Bytes := ascii "2006-01-02T15:04:05Z07:00"

/-- The literal layout of the second attempt in `UnmarshalJSON`. -/
def fallbackLayout : Bytes := ascii "2006-01-02T15:04:05Z0700"

/-- `(*Time).UnmarshalJSON` over any implementation `parse` of `time.Parse`
(layout first, value second, result `(p, err)`).  The result is the final value of
`t.Time` together with the returned error; the receiver is assumed non-nil. -/
def Time.UnmarshalJSON {τ ε : Type} (parse : Bytes → Bytes → τ × Option ε) (b : Bytes) :
    Run (τ × Option ε) :=
  -- s := string(b); s = s[1 : len(s)-1]
  match sliceBytes b 1 ((b.length : Int) - 1) with
  | .fault => .fault
  | .done s =>
    -- p, err := time.Parse(time.RFC3339, s)
    let r := parse RFC3339 s
    -- if err != nil { p, err = time.Parse("2006-01-02T15:04:05Z0700", s) }
    let r := if r.2.isSome then parse fallbackLayout s else r
    -- t.Time = p; return
    .done r

/-! ### The standard library's `time.Parse`

`time.Parse` is not part of the repository; the definitions below follow package
`time` (`format.go`, `time.go`) for the layout elements that occur in the two layouts
used by `UnmarshalJSON`.  A layout that contains any other element is outside the model
(`tokenize` answers `none`). -/

/-- Layout elements (`std...` constants of package `time`) used by the two layouts. -/
inductive Std where
  | stdLongYear | stdZeroMonth | stdZeroDay | stdHour | stdZeroMinute | stdZeroSecond
  | stdISO8601TZ | stdISO8601ColonTZ
  deriving DecidableEq, Repr

/-- The layout text of an element. -/
def Std.text : Std → Bytes
  | .stdLongYear => ascii "2006"
  | .stdZeroMonth => ascii "01"
  | .stdZeroDay => ascii "02"
  | .stdHour => ascii "15"
  | .stdZeroMinute => ascii "04"
  | .stdZeroSecond => ascii "05"
  | .stdISO8601TZ => ascii "Z0700"
  | .stdISO8601ColonTZ => ascii "Z07:00"

/-- What `nextStdChunk` finds at the head of a layout. -/
inductive StdAt where
  | literal
  | unsupported
  | elem (std : Std)
  deriving DecidableEq, Repr

def startsWith (s : Bytes) (p : String) : Bool := (ascii p).isPrefixOf s

/-- `isDigit(s, i)` of package `time`. -/
def isDigit (s : Bytes) (i : Nat) : Bool :=
  match s[i]? with
  | some c => decide (48 ≤ c ∧ c ≤ 57)
  | none => false

/-- The case analysis of `nextStdChunk` at one layout position. -/
def stdAt (l : Bytes) : StdAt :=
  match l with
  | [] => .literal
  | c :: rest =>
    if c = 74 then (if startsWith l "Jan" then .unsupported else .literal)
    else if c = 77 then
      (if startsWith l "Mon" || startsWith l "MST" then .unsupported else .literal)
    else if c = 48 then
      match rest with
      | [] => .literal
      | d :: _ =>
        if 49 ≤ d ∧ d ≤ 54 then
          (if d = 49 then .elem .stdZeroMonth else if d = 50 then .elem .stdZeroDay
           else if d = 52 then .elem .stdZeroMinute else if d = 53 then .elem .stdZeroSecond
           else .unsupported)
        else if startsWith l "002" then .unsupported else .literal
    else if c = 49 then (if startsWith l "15" then .elem .stdHour else .unsupported)
    else if c = 50 then (if startsWith l "2006" then .elem .stdLongYear else .unsupported)
    else if c = 95 then
      (if startsWith l "_2" || startsWith l "__2" then .unsupported else .literal)
    else if c = 51 ∨ c = 52 ∨ c = 53 then .unsupported
    else if c = 80 then (if startsWith l "PM" then .unsupported else .literal)
    else if c = 112 then (if startsWith l "pm" then .unsupported else .literal)
    else if c = 45 then (if startsWith l "-07" then .unsupported else .literal)
    else if c = 90 then
      (if startsWith l "Z070000" then .unsupported
       else if startsWith l "Z07:00:00" then .unsupported
       else if startsWith l "Z0700" then .elem .stdISO8601TZ
       else if startsWith l "Z07:00" then .elem .stdISO8601ColonTZ
       else if startsWith l "Z07" then .unsupported
       else .literal)
    else if c = 46 ∨ c = 44 then
      match rest with
      | [] => .literal
      | ch :: more =>
        if ch = 48 ∨ ch = 57 then
          (if isDigit (more.dropWhile (fun x => x = ch)) 0 then .literal else .unsupported)
        else .literal
    else .literal

/-- Repeated `nextStdChunk`: the layout as a list of (literal text, element) pairs and
the literal text after the last element.  `skipN` counts the bytes of the element just
recognised that are still to be passed over. -/
def tokenize : Nat → Bytes → Bytes → Option (List (Bytes × Std) × Bytes)
  | _, lit, [] => some ([], lit)
  | n + 1, lit, _ :: rest => tokenize n lit rest
  | 0, lit, c :: rest =>
    match stdAt (c :: rest) with
    | .literal => tokenize 0 (lit ++ [c]) rest
    | .unsupported => none
    | .elem std =>
      (tokenize (std.text.length - 1) [] rest).map (fun r => ((lit, std) :: r.1, r.2))

/-- `cutspace` of package `time`. -/
def cutspace (s : Bytes) : Bytes := s.dropWhile (fun c => c = 32)

/-- `skip(value, lit)` of package `time`: `value` must start with the literal text; a
run of spaces in the literal matches any run of spaces.  `inRun` records that the
previous literal byte was a space of a run already matched.  On failure the remaining
value is returned in `Except.error`. -/
def skipAux : Bool → Bytes → Bytes → Except Bytes Bytes
  | _, value, [] => .ok value
  | inRun, value, p :: ps =>
    if p = 32 then
      if inRun then skipAux true value ps
      else
        match value with
        | v :: _ => if v ≠ 32 then .error value else skipAux true (cutspace value) ps
        | [] => skipAux true [] ps
    else
      match value with
      | v :: vs => if v ≠ p then .error value else skipAux false vs ps
      | [] => .error value

def skip (value lit : Bytes) : Except Bytes Bytes := skipAux false value lit

/-- `leadingInt` of package `time`, with the digits read so far in `x`. -/
def leadingInt : Nat → Bytes → Option (Nat × Bytes)
  | x, [] => some (x, [])
  | x, c :: s =>
    if c < 48 ∨ c > 57 then some (x, c :: s)
    else if x > 2 ^ 63 / 10 then none
    else if x * 10 + c - 48 > 2 ^ 63 then none
    else leadingInt (x * 10 + c - 48) s

/-- `atoi` of package `time`; `none` is `errAtoi`. -/
def atoi (s : Bytes) : Option Int :=
  let neg := match s with
    | c :: _ => decide (c = 45)
    | [] => false
  let s := match s with
    | c :: rest => if c = 45 ∨ c = 43 then rest else s
    | [] => s
  match leadingInt 0 s with
  | some (q, []) => some (if neg then -(q : Int) else q)
  | _ => none

/-- `getnum(s, fixed)` of package `time`: `(n, rest, failed)`. -/
def getnum (s : Bytes) (fixed : Bool) : Int × Bytes × Bool :=
  if !isDigit s 0 then (0, s, true)
  else if !isDigit s 1 then
    if fixed then (0, s, true) else (((s.getD 0 0 : Nat) : Int) - 48, s.drop 1, false)
  else ((((s.getD 0 0 : Nat) : Int) - 48) * 10 + (((s.getD 1 0 : Nat) : Int) - 48), s.drop 2, false)

/-- `parseNanoseconds(value, nbytes)`: `(ns, rangeErrString, failed)`. -/
def parseNanoseconds (value : Bytes) (nbytes : Nat) : Int × Option String × Bool :=
  if ¬ (value.getD 0 0 = 46 ∨ value.getD 0 0 = 44) then (0, none, true)
  else
    let value := if nbytes > 10 then value.take 10 else value
    let nbytes := if nbytes > 10 then 10 else nbytes
    match atoi ((value.take nbytes).drop 1) with
    | none => (0, none, true)
    | some ns =>
      if ns < 0 then (ns, some "fractional second", false)
      else (ns * 10 ^ (10 - nbytes), none, false)

/-- The variables of `time.parse` ("Time being constructed"); `zUTC` stands for
`z != nil`, the only location these layouts assign being UTC. -/
structure Fields where
  year : Int := 0
  month : Int := -1
  day : Int := -1
  hour : Int := 0
  min : Int := 0
  sec : Int := 0
  nsec : Int := 0
  zUTC : Bool := false
  zoneOffset : Int := -1
  deriving DecidableEq, Repr

/-- State after the `switch` of one loop iteration of `time.parse`. -/
structure StepOut where
  st : Fields
  value : Bytes
  rangeErrString : Option String := none
  failed : Bool := false
  deriving DecidableEq, Repr

/-- The numeric part of the zone cases: `(zoneOffset, rangeErrString, failed)` from the
sign byte and the two-byte hour and minute texts. -/
def zoneNum (sign : Nat) (hour min : Bytes) : Int × Option String × Bool :=
  let (hr, _, e1) := getnum hour true
  let (mm, e2) := if e1 then ((0 : Int), true) else ((getnum min true).1, (getnum min true).2.2)
  let (ss, e3) := if e2 then ((0 : Int), true) else
    ((getnum (ascii "00") true).1, (getnum (ascii "00") true).2.2)
  let r : Option String := if hr > 24 then some "time zone offset hour" else none
  let r := if mm > 60 then some "time zone offset minute" else r
  let r := if ss > 60 then some "time zone offset second" else r
  let off := (hr * 60 + mm) * 60 + ss
  if sign = 43 then (off, r, e3)
  else if sign = 45 then (-off, r, e3)
  else (off, r, true)

/-- The body of the `switch std & stdMask` in `time.parse` for one element. -/
def parseStd (std : Std) (st : Fields) (value : Bytes) : StepOut :=
  match std with
  | .stdLongYear =>
    if value.length < 4 || !isDigit value 0 then { st := st, value := value, failed := true }
    else
      match atoi (value.take 4) with
      | some y => { st := { st with year := y }, value := value.drop 4 }
      | none => { st := { st with year := 0 }, value := value.drop 4, failed := true }
  | .stdZeroMonth =>
    let (month, value, e) := getnum value true
    { st := { st with month := month }, value := value, failed := e,
      rangeErrString := if !e && (month ≤ 0 || 12 < month) then some "month" else none }
  | .stdZeroDay =>
    let (day, value, e) := getnum value true
    { st := { st with day := day }, value := value, failed := e }
  | .stdHour =>
    let (hour, value, e) := getnum value false
    { st := { st with hour := hour }, value := value, failed := e,
      rangeErrString := if hour < 0 || 24 ≤ hour then some "hour" else none }
  | .stdZeroMinute =>
    let (min, value, e) := getnum value true
    { st := { st with min := min }, value := value, failed := e,
      rangeErrString := if min < 0 || 60 ≤ min then some "minute" else none }
  | .stdZeroSecond =>
    let (sec, value, e) := getnum value true
    let st := { st with sec := sec }
    if e then { st := st, value := value, failed := true }
    else if sec < 0 || 60 ≤ sec then { st := st, value := value, rangeErrString := some "second" }
    else if value.length ≥ 2 && (value.getD 0 0 = 46 || value.getD 0 0 = 44) && isDigit value 1 then
      -- the next layout element is never a fractional second in the modelled layouts
      let n := 2 + ((value.drop 2).takeWhile (fun c => 48 ≤ c ∧ c ≤ 57)).length
      let (nsec, r, e) := parseNanoseconds value n
      { st := { st with nsec := nsec }, value := value.drop n, rangeErrString := r, failed := e }
    else { st := st, value := value }
  | .stdISO8601TZ =>
    if value.length ≥ 1 && value.getD 0 0 = 90 then
      { st := { st with zUTC := true }, value := value.drop 1 }
    else if value.length < 5 then { st := st, value := value, failed := true }
    else
      let (off, r, e) := zoneNum (value.getD 0 0) ((value.drop 1).take 2) ((value.drop 3).take 2)
      { st := { st with zoneOffset := off }, value := value.drop 5, rangeErrString := r,
        failed := e }
  | .stdISO8601ColonTZ =>
    if value.length ≥ 1 && value.getD 0 0 = 90 then
      { st := { st with zUTC := true }, value := value.drop 1 }
    else if value.length < 6 then { st := st, value := value, failed := true }
    else if value.getD 3 0 ≠ 58 then { st := st, value := value, failed := true }
    else
      let (off, r, e) := zoneNum (value.getD 0 0) ((value.drop 1).take 2) ((value.drop 4).take 2)
      { st := { st with zoneOffset := off }, value := value.drop 6, rangeErrString := r,
        failed := e }

/-- `time.ParseError`. -/
structure ParseError where
  Layout : Bytes
  Value : Bytes
  LayoutElem : Bytes
  ValueElem : Bytes
  Message : Bytes
  deriving DecidableEq, Repr

/-- The lower-case hexadecimal digit of a value below 16 (`lowerhex`). -/
def lowerhex (n : Nat) : Nat := if n < 10 then 48 + n else 87 + n

/-- `quote` of package `time`: the text between double quotes, with a backslash before
a double quote or a backslash, and every byte below 32 or above 127 written as `\xhh`. -/
def quote (s : Bytes) : Bytes :=
  34 :: (s.flatMap (fun c =>
    if c ≥ 128 ∨ c < 32 then [92, 120, lowerhex (c / 16), lowerhex (c % 16)]
    else if c = 34 ∨ c = 92 then [92, c]
    else [c]) ++ [34])

/-- The loop of `time.parse` over a tokenized layout: the parsed fields, or the
`(LayoutElem, ValueElem, Message)` of the error. -/
def parseLoop : List (Bytes × Std) → Bytes → Fields → Bytes →
    Except (Bytes × Bytes × Bytes) Fields
  | [], tail, st, value =>
    match skip value tail with
    | .error v => .error (tail, v, [])
    | .ok value =>
      if value.length ≠ 0 then .error ([], value, ascii ": extra text: " ++ quote value)
      else .ok st
  | (lit, std) :: more, tail, st, value =>
    match skip value lit with
    | .error v => .error (lit, v, [])
    | .ok value =>
      let out := parseStd std st value
      match out.rangeErrString with
      | some r => .error (std.text, out.value, ascii (": " ++ r ++ " out of range"))
      | none =>
        if out.failed then .error (std.text, value, [])
        else parseLoop more tail out.st out.value

/-- `isLeap` of package `time`. -/
def isLeap (year : Int) : Bool := year % 4 = 0 && (year % 100 ≠ 0 || year % 400 = 0)

/-- The table `daysBefore` of package `time`. -/
def daysBefore : List Int := [0, 31, 59, 90, 120, 151, 181, 212, 243, 273, 304, 334, 365]

/-- `daysIn(m, year)` of package `time`. -/
def daysIn (m : Int) (year : Int) : Int :=
  if m = 2 && isLeap year then 29
  else daysBefore.getD m.toNat 0 - daysBefore.getD (m.toNat - 1) 0

/-- A `time.Time`: the instant as Unix seconds and nanoseconds, and the offset of its
location in seconds east of UTC. -/
structure GoTime where
  unix : Int
  nsec : Int
  offset : Int
  deriving DecidableEq, Repr

/-- The zero value `time.Time{}` (January 1, year 1, 00:00:00 UTC). -/
def GoTime.zero : GoTime := { unix := -62135596800, nsec := 0, offset := 0 }

/-- `time.Date(year, month, day, hour, min, sec, nsec, UTC)` for in-range arguments (the
only ones `time.parse` passes on): Unix seconds of the civil date-time. -/
def dateUnix (year month day hour min sec : Int) : Int :=
  let y := year - 1
  let d := 365 * y + y / 4 - y / 100 + y / 400 - 719162
    + daysBefore.getD (month.toNat - 1) 0
    + (if isLeap year && month ≥ 3 then 1 else 0)
    + (day - 1)
  d * 86400 + hour * 3600 + min * 60 + sec

/-- The end of `time.parse`: day validation and construction of the `Time`. -/
def finish (st : Fields) : Except (Bytes × Bytes × Bytes) GoTime :=
  -- if month < 0 { month = int(January) }; if day < 0 { day = 1 }
  let st := { st with month := if st.month < 0 then 1 else st.month,
                      day := if st.day < 0 then 1 else st.day }
  if st.day < 1 || st.day > daysIn st.month st.year then
    .error ([], [], ascii ": day out of range")
  else if st.zUTC then
    .ok { unix := dateUnix st.year st.month st.day st.hour st.min st.sec, nsec := st.nsec,
          offset := 0 }
  else if st.zoneOffset ≠ -1 then
    .ok { unix := dateUnix st.year st.month st.day st.hour st.min st.sec - st.zoneOffset,
          nsec := st.nsec, offset := st.zoneOffset }
  else
    .ok { unix := dateUnix st.year st.month st.day st.hour st.min st.sec, nsec := st.nsec,
          offset := 0 }

/-- `time.Parse(layout, value)`: the parsed time and no error, or `Time{}` and a
`*ParseError`.  `none` when the layout lies outside the modelled elements. -/
def timeParse? (layout value : Bytes) : Option (GoTime × Option ParseError) :=
  match tokenize 0 [] layout with
  | none => none
  | some (chunks, tail) =>
    match parseLoop chunks tail {} value >>= finish with
    | .ok t => some (t, none)
    | .error (le, ve, m) =>
      some (GoTime.zero, some { Layout := layout, Value := value, LayoutElem := le,
                                ValueElem := ve, Message := m })

/-- `time.Parse` as a total function; both layouts of `UnmarshalJSON` are modelled
(see `tokenize_RFC3339` and `tokenize_fallbackLayout`), so the default, an error, is
never used there. -/
def timeParse (layout value : Bytes) : GoTime × Option ParseError :=
  (timeParse? layout value).getD
    (GoTime.zero, some { Layout := layout, Value := value, LayoutElem := [], ValueElem := [],
                         Message := ascii ": layout element outside the model" })

/-! ### Date-times and their two textual forms -/

/-- Two decimal digits of `n`, as bytes. -/
def digits2 (n : Nat) : Bytes := [48 + n / 10, 48 + n % 10]

/-- Four decimal digits of `n`, as bytes. -/
def digits4 (n : Nat) : Bytes := [48 + n / 1000, 48 + n / 100 % 10, 48 + n / 10 % 10, 48 + n % 10]

/-- The number written by the digits `ds`, continuing the number `x`. -/
def digitsVal (x : Nat) (ds : List Nat) : Nat := ds.foldl (fun a d => a * 10 + d) x

/-- A date-time with a numeric UTC offset: civil date, time of day, optional digits of a
fractional second, and the offset `±offHour:offMin` (`west` for the sign `-`). -/
structure DateTime where
  year : Nat
  month : Nat
  day : Nat
  hour : Nat
  min : Nat
  sec : Nat
  frac : List Nat
  west : Bool
  offHour : Nat
  offMin : Nat
  deriving DecidableEq, Repr

/-- The fields denote a calendar date-time that `time.Time` can hold and print with a
four-digit year: a day that exists in its month, hour below 24, minute and second below
60, decimal digits in the fraction, and an offset within `±23:59`. -/
def DateTime.Valid (d : DateTime) : Prop :=
  d.year ≤ 9999 ∧ 1 ≤ d.month ∧ d.month ≤ 12 ∧ 1 ≤ d.day ∧ (d.day : Int) ≤ daysIn d.month d.year ∧
  d.hour ≤ 23 ∧ d.min ≤ 59 ∧ d.sec ≤ 59 ∧ (∀ f ∈ d.frac, f < 10) ∧ d.offHour ≤ 23 ∧ d.offMin ≤ 59

instance (d : DateTime) : Decidable d.Valid := by
  unfold DateTime.Valid
  infer_instance

/-- Text of the fractional second: nothing, or a period and the digits. -/
def fracText : List Nat → Bytes
  | [] => []
  | ds => 46 :: ds.map (fun f => 48 + f)

/-- The text `YYYY-MM-DDTHH:MM:SS[.fff]` before the offset. -/
def DateTime.common (d : DateTime) : Bytes :=
  digits4 d.year ++ [45] ++ digits2 d.month ++ [45] ++ digits2 d.day ++ [84] ++
  digits2 d.hour ++ [58] ++ digits2 d.min ++ [58] ++ digits2 d.sec ++ fracText d.frac

/-- The offset text: `+hh:mm` / `-hh:mm` when `colon`, else `+hhmm` / `-hhmm`. -/
def DateTime.zone (colon : Bool) (d : DateTime) : Bytes :=
  [if d.west then 45 else 43] ++ digits2 d.offHour ++ (if colon then [58] else []) ++
  digits2 d.offMin

/-- The RFC 3339 text of the date-time (`colon = true`) or the same text with the colon
removed from the offset (`colon = false`). -/
def DateTime.text (colon : Bool) (d : DateTime) : Bytes := d.common ++ d.zone colon

/-- Nanoseconds denoted by the digits of a fractional second (digits after the ninth are
dropped). -/
def nanos (ds : List Nat) : Int :=
  ((digitsVal 0 (ds.take 9) : Nat) : Int) * 10 ^ (9 - min ds.length 9)

/-- The offset in seconds east of UTC. -/
def DateTime.offset (d : DateTime) : Int :=
  if d.west then -(((d.offHour : Int) * 60 + d.offMin) * 60) else ((d.offHour : Int) * 60 + d.offMin) * 60

/-- The instant the date-time denotes, with its offset. -/
def DateTime.time (d : DateTime) : GoTime :=
  { unix := dateUnix d.year d.month d.day d.hour d.min d.sec - d.offset,
    nsec := if d.frac = [] then 0 else nanos d.frac,
    offset := d.offset }

/-- The fields after the six date and time elements have been parsed. -/
def DateTime.fields (d : DateTime) : Fields :=
  { year := d.year, month := d.month, day := d.day, hour := d.hour, min := d.min, sec := d.sec,
    nsec := if d.frac = [] then 0 else nanos d.frac }

/-! ## client.go

The standard-library operations the client calls (`net/url`, `net/http`,
`encoding/json`, the HTTP executor) are not part of the repository.  Those the
properties below depend on are written out after the library sources (`url.Parse` and
`parse`, `getScheme`, `setPath`, `setFragment`, `escape`, `unescape`, `URL.String`,
`URL.ResolveReference`, `validMethod`, header canonicalisation, `Values.Set`,
`Values.Encode`, `QueryEscape`, the newline written by `Encoder.Encode`, the fields
`http.NewRequest` fills in); the others are the fields of `Lib`. -/

/-- Go `error` values, as far as the client code tells them apart. -/
inductive GoError where
  /-- The sentinel `io.EOF`. -/
  | EOF
  /-- Any other error value produced by a library. -/
  | other (text : String)
  /-- The error of `http.NewRequest` for an invalid method. -/
  | invalidMethod (method : Bytes)
  /-- The result of `errors.Wrap(cause, message)`. -/
  | wrap (cause : GoError) (message : String)
  /-- An `url.EscapeError`. -/
  | escapeError (s : Bytes)
  /-- The struct `url.Error` with its `Op`, `URL` and `Err`. -/
  | urlError (op : String) (url : Bytes) (err : GoError)
  deriving DecidableEq, Repr

/-- A `net/url.URL`. -/
structure URL where
  Scheme : Bytes := []
  Opaque : Bytes := []
  User : Option (Bytes × Option Bytes) := none
  Host : Bytes := []
  Path : Bytes := []
  RawPath : Bytes := []
  OmitHost : Bool := false
  ForceQuery : Bool := false
  RawQuery : Bytes := []
  Fragment : Bytes := []
  RawFragment : Bytes := []
  deriving DecidableEq, Repr

/-- Go maps from strings to string lists (`url.Values`, `http.Header`): association
lists with at most one entry per key. -/
abbrev StringMap := List (Bytes × List Bytes)

/-- The map lookup `m[key]`, `none` when the key is absent. -/
def StringMap.find (m : StringMap) (key : Bytes) : Option (List Bytes) :=
  match m with
  | [] => none
  | (k, v) :: rest => if k = key then some v else StringMap.find rest key

/-- The map assignment `m[key] = vs`. -/
def StringMap.assign (m : StringMap) (key : Bytes) (vs : List Bytes) : StringMap :=
  match m with
  | [] => [(key, vs)]
  | (k, v) :: rest => if k = key then (key, vs) :: rest else (k, v) :: StringMap.assign rest key vs

/-- An `http.Header`. -/
abbrev Header := StringMap

/-- A `url.Values`. -/
abbrev Values := StringMap

/-- The table `isTokenTable` of `golang.org/x/net/http/httpguts` (RFC 7230 token
bytes), which `validMethod` and the header-key check consult. -/
def isTokenByte (c : Nat) : Bool :=
  c = 33 || c = 35 || c = 36 || c = 37 || c = 38 || c = 39 || c = 42 || c = 43 || c = 45 ||
  c = 46 || (48 ≤ c && c ≤ 57) || (65 ≤ c && c ≤ 90) || c = 94 || c = 95 || c = 96 ||
  (97 ≤ c && c ≤ 122) || c = 124 || c = 126

/-- `validMethod` of `net/http`: a non-empty token. -/
def validMethod (method : Bytes) : Bool := method.length > 0 && method.all isTokenByte

/-- The recasing loop of `textproto.canonicalMIMEHeaderKey`; `upper` says that the next
letter is to be upper case. -/
def recase : Bool → Bytes → Bytes
  | _, [] => []
  | upper, c :: rest =>
    let c := if upper && (97 ≤ c && c ≤ 122) then c - 32
             else if !upper && (65 ≤ c && c ≤ 90) then c + 32 else c
    c :: recase (c = 45) rest

/-- `textproto.CanonicalMIMEHeaderKey`: keys with a byte that is not a token byte are
left alone, the others are recased. -/
def CanonicalMIMEHeaderKey (s : Bytes) : Bytes :=
  if s.all isTokenByte then recase true s else s

/-- `Header.Set(key, value)`. -/
def Header.Set (h : Header) (key value : Bytes) : Header :=
  StringMap.assign h (CanonicalMIMEHeaderKey key) [value]

/-- `Values.Set(key, value)`. -/
def Values.Set (v : Values) (key value : Bytes) : Values :=
  StringMap.assign v key [value]

/-- The upper-case hexadecimal digit of a value below 16. -/
def upperhex (n : Nat) : Nat := if n < 10 then 48 + n else 55 + n

/-- `shouldEscape(c, encodeQueryComponent)` of `net/url`: everything but unreserved
characters is escaped. -/
def shouldEscapeQuery (c : Nat) : Bool :=
  !((48 ≤ c && c ≤ 57) || (65 ≤ c && c ≤ 90) || (97 ≤ c && c ≤ 122) ||
    c = 45 || c = 95 || c = 46 || c = 126)

/-- `url.QueryEscape`. -/
def QueryEscape (s : Bytes) : Bytes :=
  s.flatMap (fun c =>
    if c = 32 then [43]
    else if shouldEscapeQuery c then [37, upperhex (c / 16), upperhex (c % 16)]
    else [c])

/-- Byte-wise lexicographic order of Go strings (`<=`). -/
def bytesLE : Bytes → Bytes → Bool
  | [], _ => true
  | _ :: _, [] => false
  | a :: as, b :: bs => a < b || (a = b && bytesLE as bs)

/-- Insertion into a list of keys sorted by `bytesLE`. -/
def insertKey (k : Bytes) : List Bytes → List Bytes
  | [] => [k]
  | x :: xs => if bytesLE k x then k :: x :: xs else x :: insertKey k xs

/-- The keys of a map in increasing order (`slices.Sort` in `Values.Encode`). -/
def sortedKeys (v : Values) : List Bytes := (v.map Prod.fst).foldr insertKey []

/-- `Values.Encode`: for the keys in sorted order and each of their values, an `&` if
the buffer is not empty, then the escaped key, `=`, and the escaped value. -/
def Values.Encode (v : Values) : Bytes :=
  (sortedKeys v).foldl (fun buf k =>
    ((StringMap.find v k).getD []).foldl (fun buf val =>
      (if buf.length > 0 then buf ++ [38] else buf) ++ QueryEscape k ++ [61] ++ QueryEscape val)
      buf) []

/-- A `context.Context` as `Do` observes it: `err` is the text of `ctx.Err()` when the
context is done at the time `Do` inspects it, `none` when it is not done. -/
structure Ctx where
  err : Option String := none
  deriving DecidableEq, Repr

/-- An `http.Request`.  `Body` is `none` for a nil body, else the bytes the body reader
delivers. -/
structure Request where
  Method : Bytes
  URL : URL
  Header : Header
  Body : Option Bytes
  ContentLength : Nat
  Host : Bytes
  ctx : Ctx
  deriving DecidableEq, Repr

/-- An `http.Response`, as far as `Do` uses it: what `ioutil.ReadAll(resp.Body)` and
`resp.Body.Close()` return. -/
structure Response where
  StatusCode : Nat
  readAll : Bytes × Option GoError
  close : Option GoError
  deriving DecidableEq, Repr

/-- The library operations taken as given.  `H` is the type of `*http.Client` values,
`V` the type of Go values passed as request bodies, `D` the type of the value a
destination pointer points to. -/
structure Lib (H V D : Type) where
  /-- The function `parseAuthority` of `net/url`: the user information and the host of
  an authority. -/
  parseAuthority : Bytes → Except GoError (Option (Bytes × Option Bytes) × Bytes)
  /-- The function `resolvePath` of `net/url` (merging and removal of dot segments). -/
  resolvePath : Bytes → Bytes → Bytes
  /-- The function `url.ParseQuery` on a non-empty query, its error dropped. -/
  parseQuery : Bytes → Values
  /-- The function `removeEmptyPort` of `net/http`. -/
  removeEmptyPort : Bytes → Bytes
  /-- The JSON encoding of a Go value (`json.Marshal`), with HTML escaping as given. -/
  jsonMarshal : Bool → V → Except GoError Bytes
  /-- The call `json.Unmarshal(data, v)`: the value the destination holds afterwards and
  the returned error. -/
  jsonUnmarshal : Bytes → D → D × Option GoError
  /-- The variable `http.DefaultClient`. -/
  DefaultClient : H
  /-- The method `(*http.Client).Do`. -/
  httpDo : H → Request → Option Response × Option GoError

/-! ### Package `net/url` -/

/-- The modes of `escape` and `shouldEscape`. -/
inductive Encoding where
  | encodePath | encodePathSegment | encodeHost | encodeZone | encodeUserPassword
  | encodeQueryComponent | encodeFragment
  deriving DecidableEq, Repr

/-- `shouldEscape(c, mode)` of `net/url`. -/
def shouldEscape (c : Nat) (mode : Encoding) : Bool :=
  -- unreserved characters (alphanum)
  if (97 ≤ c ∧ c ≤ 122) ∨ (65 ≤ c ∧ c ≤ 90) ∨ (48 ≤ c ∧ c ≤ 57) then false
  else if (mode = .encodeHost ∨ mode = .encodeZone) ∧
      (c = 33 ∨ c = 36 ∨ c = 38 ∨ c = 39 ∨ c = 40 ∨ c = 41 ∨ c = 42 ∨ c = 43 ∨ c = 44 ∨
       c = 59 ∨ c = 61 ∨ c = 58 ∨ c = 91 ∨ c = 93 ∨ c = 60 ∨ c = 62 ∨ c = 34) then false
  -- unreserved characters (mark)
  else if c = 45 ∨ c = 95 ∨ c = 46 ∨ c = 126 then false
  -- reserved characters
  else if (c = 36 ∨ c = 38 ∨ c = 43 ∨ c = 44 ∨ c = 47 ∨ c = 58 ∨ c = 59 ∨ c = 61 ∨ c = 63 ∨
       c = 64) ∧ mode ≠ .encodeHost ∧ mode ≠ .encodeZone then
    match mode with
    | .encodePath => c = 63
    | .encodePathSegment => c = 47 ∨ c = 59 ∨ c = 44 ∨ c = 63
    | .encodeUserPassword => c = 64 ∨ c = 47 ∨ c = 63 ∨ c = 58
    | .encodeQueryComponent => true
    | .encodeFragment => false
    | _ => true
  else if mode = .encodeFragment ∧ (c = 33 ∨ c = 40 ∨ c = 41 ∨ c = 42) then false
  -- everything else must be escaped
  else true

/-- `escape(s, mode)` of `net/url`: a space becomes `+` in a query component, every
other byte that `shouldEscape` names becomes `%XX`, the rest is copied. -/
def escape (s : Bytes) (mode : Encoding) : Bytes :=
  s.flatMap (fun c =>
    if shouldEscape c mode then
      (if c = 32 ∧ mode = .encodeQueryComponent then [43]
       else [37, upperhex (c / 16), upperhex (c % 16)])
    else [c])

/-- `ishex(c)` of `net/url`. -/
def ishex (c : Nat) : Bool :=
  (48 ≤ c && c ≤ 57) || (97 ≤ c && c ≤ 102) || (65 ≤ c && c ≤ 70)

/-- `unhex(c)` of `net/url`. -/
def unhex (c : Nat) : Nat :=
  if 48 ≤ c ∧ c ≤ 57 then c - 48
  else if 97 ≤ c ∧ c ≤ 102 then c - 97 + 10
  else if 65 ≤ c ∧ c ≤ 70 then c - 65 + 10
  else 0

/-- `unescape(s, mode)` of `net/url` for the modes `encodePath` and `encodeFragment`
(no host checks, `+` kept): `%XX` is decoded, a `%` not followed by two hexadecimal
digits is an `EscapeError` of the (at most three) bytes from the `%` on. -/
def unescape : Bytes → Except GoError Bytes
  | [] => .ok []
  | c :: rest =>
    if c = 37 then
      match rest with
      | a :: b :: more =>
        if ishex a && ishex b then
          match unescape more with
          | .error err => .error err
          | .ok t => .ok ((unhex a * 16 + unhex b) :: t)
        else .error (.escapeError (37 :: rest.take 2))
      | _ => .error (.escapeError (37 :: rest.take 2))
    else
      match unescape rest with
      | .error err => .error err
      | .ok t => .ok (c :: t)

/-- `validEncoded(s, mode)` of `net/url`. -/
def validEncoded (s : Bytes) (mode : Encoding) : Bool :=
  s.all (fun c =>
    if c = 33 ∨ c = 36 ∨ c = 38 ∨ c = 39 ∨ c = 40 ∨ c = 41 ∨ c = 42 ∨ c = 43 ∨ c = 44 ∨
        c = 59 ∨ c = 61 ∨ c = 58 ∨ c = 64 then true
    else if c = 91 ∨ c = 93 then true
    else if c = 37 then true
    else !shouldEscape c mode)

/-- The method `(*URL).setPath(p)`. -/
def URL.setPath (u : URL) (p : Bytes) : Except GoError URL :=
  match unescape p with
  | .error err => .error err
  | .ok path =>
    .ok { u with Path := path, RawPath := if escape path .encodePath = p then [] else p }

/-- The method `(*URL).setFragment(f)`. -/
def URL.setFragment (u : URL) (f : Bytes) : Except GoError URL :=
  match unescape f with
  | .error err => .error err
  | .ok frag =>
    .ok { u with Fragment := frag,
                 RawFragment := if escape frag .encodeFragment = f then [] else f }

/-- The method `(*URL).EscapedPath()`. -/
def URL.EscapedPath (u : URL) : Bytes :=
  let hint : Bool := match unescape u.RawPath with
    | .ok p => decide (p = u.Path)
    | .error _ => false
  if u.RawPath ≠ [] ∧ validEncoded u.RawPath .encodePath = true ∧ hint = true then u.RawPath
  else if u.Path = [42] then [42]
  else escape u.Path .encodePath

/-- The method `(*URL).EscapedFragment()`. -/
def URL.EscapedFragment (u : URL) : Bytes :=
  let hint : Bool := match unescape u.RawFragment with
    | .ok f => decide (f = u.Fragment)
    | .error _ => false
  if u.RawFragment ≠ [] ∧ validEncoded u.RawFragment .encodeFragment = true ∧ hint = true then
    u.RawFragment
  else escape u.Fragment .encodeFragment

/-- The method `(*Userinfo).String()` for a non-nil receiver: user name and, when set,
password. -/
def userinfoString (ui : Bytes × Option Bytes) : Bytes :=
  match ui.2 with
  | none => escape ui.1 .encodeUserPassword
  | some password =>
    escape ui.1 .encodeUserPassword ++ [58] ++ escape password .encodeUserPassword

/-- The method `(*URL).String()`. -/
def URL.String (u : URL) : Bytes :=
  let buf : Bytes := if u.Scheme ≠ [] then u.Scheme ++ [58] else []
  let buf : Bytes :=
    if u.Opaque ≠ [] then buf ++ u.Opaque
    else
      let buf : Bytes :=
        if u.Scheme ≠ [] ∨ u.Host ≠ [] ∨ u.User ≠ none then
          (if u.OmitHost = true ∧ u.Host = [] ∧ u.User = none then buf
           else
             let buf := if u.Host ≠ [] ∨ u.Path ≠ [] ∨ u.User ≠ none then buf ++ [47, 47]
                        else buf
             let buf := match u.User with
               | some ui => buf ++ userinfoString ui ++ [64]
               | none => buf
             if u.Host ≠ [] then buf ++ escape u.Host .encodeHost else buf)
        else buf
      let path := u.EscapedPath
      let buf := if path ≠ [] ∧ path.head? ≠ some 47 ∧ u.Host ≠ [] then buf ++ [47] else buf
      let buf := if buf.length = 0 ∧ 58 ∈ path.takeWhile (fun b => b ≠ 47) then buf ++ [46, 47]
                 else buf
      buf ++ path
  let buf := if u.ForceQuery = true ∨ u.RawQuery ≠ [] then buf ++ [63] ++ u.RawQuery else buf
  if u.Fragment ≠ [] then buf ++ [35] ++ u.EscapedFragment else buf

/-- `stringContainsCTLByte(s)` of `net/url`. -/
def stringContainsCTLByte (s : Bytes) : Bool := s.any (fun b => b < 32 || b = 127)

/-- The loop of `getScheme(rawURL)`; `i` is the index of the head of the remaining
bytes. -/
def getSchemeAux (rawURL : Bytes) : Nat → Bytes → Except GoError (Bytes × Bytes)
  | _, [] => .ok ([], rawURL)
  | i, c :: rest =>
    if (97 ≤ c ∧ c ≤ 122) ∨ (65 ≤ c ∧ c ≤ 90) then getSchemeAux rawURL (i + 1) rest
    else if (48 ≤ c ∧ c ≤ 57) ∨ c = 43 ∨ c = 45 ∨ c = 46 then
      (if i = 0 then .ok ([], rawURL) else getSchemeAux rawURL (i + 1) rest)
    else if c = 58 then
      (if i = 0 then .error (.other "missing protocol scheme")
       else .ok (rawURL.take i, rest))
    else .ok ([], rawURL)

/-- `getScheme(rawURL)` of `net/url`: the scheme and the text after its colon, or no
scheme and the whole text. -/
def getScheme (rawURL : Bytes) : Except GoError (Bytes × Bytes) :=
  getSchemeAux rawURL 0 rawURL

/-- `strings.ToLower` on ASCII text. -/
def toLower (s : Bytes) : Bytes := s.map (fun c => if 65 ≤ c ∧ c ≤ 90 then c + 32 else c)

/-- `strings.Cut(s, sep)` for a one-byte separator: the text before the first `sep` and
the text after it (empty when there is none). -/
def cut (s : Bytes) (sep : Nat) : Bytes × Bytes :=
  (s.takeWhile (fun b => b ≠ sep), (s.dropWhile (fun b => b ≠ sep)).drop 1)

/-- `parse(rawURL, false)` of `net/url`. -/
def url.parse {H V D : Type} (L : Lib H V D) (rawURL : Bytes) : Except GoError URL :=
  if stringContainsCTLByte rawURL then
    .error (.other "net/url: invalid control character in URL")
  else if rawURL = [42] then .ok { Path := [42] }
  else
    match getScheme rawURL with
    | .error err => .error err
    | .ok (scheme, rest) =>
      let scheme := toLower scheme
      -- the query: a lone trailing `?` forces an empty query
      let q : Bytes × Bytes × Bool :=
        if rest.getLast? = some 63 ∧ rest.count 63 = 1 then (rest.dropLast, [], true)
        else ((cut rest 63).1, (cut rest 63).2, false)
      let rest := q.1
      let url : URL := { Scheme := scheme, RawQuery := q.2.1, ForceQuery := q.2.2 }
      if rest.head? ≠ some 47 ∧ scheme ≠ [] then
        -- rootless paths are opaque
        .ok { url with Opaque := rest }
      else if rest.head? ≠ some 47 ∧ 58 ∈ rest.takeWhile (fun b => b ≠ 47) then
        .error (.other "first path segment in URL cannot contain colon")
      else if ¬ ((47 :: 47 :: [47]).isPrefixOf rest ∧ scheme = []) ∧ [47, 47].isPrefixOf rest then
        let authority := (rest.drop 2).takeWhile (fun b => b ≠ 47)
        let rest := (rest.drop 2).dropWhile (fun b => b ≠ 47)
        match L.parseAuthority authority with
        | .error err => .error err
        | .ok (user, host) => URL.setPath { url with User := user, Host := host } rest
      else if scheme ≠ [] ∧ rest.head? = some 47 then
        URL.setPath { url with OmitHost := true } rest
      else URL.setPath url rest

/-- The function `url.Parse(rawURL)`. -/
def url.Parse {H V D : Type} (L : Lib H V D) (rawURL : Bytes) : Except GoError URL :=
  -- cut off the fragment
  let u := (cut rawURL 35).1
  let frag := (cut rawURL 35).2
  match url.parse L u with
  | .error err => .error (.urlError "parse" u err)
  | .ok url =>
    if frag = [] then .ok url
    else
      match URL.setFragment url frag with
      | .error err => .error (.urlError "parse" rawURL err)
      | .ok url => .ok url

/-- The method `(*URL).ResolveReference(ref)`; the receiver `u` may be nil, and the call
faults where the code reads a field of a nil receiver. -/
def URL.ResolveReference {H V D : Type} (L : Lib H V D) (u : Option URL) (ref : URL) :
    Run URL :=
  if ref.Scheme ≠ [] then
    -- the receiver is not read: the "absoluteURI" case
    .done (match URL.setPath ref (L.resolvePath ref.EscapedPath []) with
      | .ok url => url
      | .error _ => ref)
  else
    match u with
    | none => .fault
    | some u =>
      let url := { ref with Scheme := u.Scheme }
      if ref.Host ≠ [] ∨ ref.User ≠ none then
        -- the "net_path" case
        .done (match URL.setPath url (L.resolvePath ref.EscapedPath []) with
          | .ok url => url
          | .error _ => url)
      else if ref.Opaque ≠ [] then
        .done { url with User := none, Host := [], Path := [] }
      else
        let url := if ref.Path = [] ∧ ref.ForceQuery = false ∧ ref.RawQuery = [] then
            (let url := { url with RawQuery := u.RawQuery }
             if ref.Fragment = [] then
               { url with Fragment := u.Fragment, RawFragment := u.RawFragment }
             else url)
          else url
        if ref.Path = [] ∧ u.Opaque ≠ [] then
          .done { url with Opaque := u.Opaque, User := none, Host := [], Path := [] }
        else
          -- the "abs_path" or "rel_path" cases
          let url := { url with Host := u.Host, User := u.User }
          .done (match URL.setPath url (L.resolvePath u.EscapedPath ref.EscapedPath) with
            | .ok url => url
            | .error _ => url)

def LiveURL : Bytes := ascii "https://api.transferwise.com"

def SandboxURL : Bytes := ascii "https://api.sandbox.transferwise.tech"

def userAgent : Bytes := ascii "github.com/billglover/transferwise"

/-- The struct `Client`, with the URL that `baseURL` points to (`none` for a nil
pointer) and the executor pointer `client`. -/
structure Client (H : Type) where
  baseURL : Option URL
  userAgent : Bytes
  client : Option H
  deriving DecidableEq, Repr

/-- A `Client` struct in memory: `baseURL` is the address of a URL object or nil. -/
structure ClientCell (H : Type) where
  baseURL : Option Nat
  userAgent : Bytes
  client : Option H
  deriving DecidableEq, Repr

/-- The struct `ClientOptions`; `baseURL` is a pointer. -/
structure ClientOptions where
  baseURL : Option Nat
  userAgent : Bytes
  deriving DecidableEq, Repr

/-- The allocated URL objects and `Client` structs; an address is an index. -/
structure Heap (H : Type) where
  urls : List URL
  clients : List (ClientCell H)

/-- The client struct at address `p` with its base URL pointer followed. -/
def Heap.client {H : Type} (h : Heap H) (p : Nat) : Option (Client H) :=
  match h.clients[p]? with
  | none => none
  | some cell =>
    match cell.baseURL with
    | none => some { baseURL := none, userAgent := cell.userAgent, client := cell.client }
    | some a =>
      match h.urls[a]? with
      | none => none
      | some u => some { baseURL := some u, userAgent := cell.userAgent, client := cell.client }

/-- The assignment `c.baseURL = q` to the client at address `p`. -/
def Heap.setBaseURL {H : Type} (h : Heap H) (p : Nat) (q : Option Nat) : Heap H :=
  { h with clients := h.clients.modify (fun cell => { cell with baseURL := q }) p }

/-- The assignment `c.userAgent = s` to the client at address `p`. -/
def Heap.setUserAgent {H : Type} (h : Heap H) (p : Nat) (s : Bytes) : Heap H :=
  { h with clients := h.clients.modify (fun cell => { cell with userAgent := s }) p }

/-- The store `*a = u` into the URL object at address `a`. -/
def Heap.storeURL {H : Type} (h : Heap H) (a : Nat) (u : URL) : Heap H :=
  { h with urls := h.urls.set a u }

/-- `NewClient(c)`: the heap after the call and the address of the new client. -/
def NewClient {H V D : Type} (L : Lib H V D) (h : Heap H) (c : Option H) : Heap H × Nat :=
  -- if c == nil { c = http.DefaultClient }
  let c := match c with
    | none => L.DefaultClient
    | some c => c
  -- baseURL, _ := url.Parse(SandboxURL)
  let r : Heap H × Option Nat := match url.Parse L SandboxURL with
    | .ok u => ({ h with urls := h.urls ++ [u] }, some h.urls.length)
    | .error _ => (h, none)
  -- return &Client{baseURL: baseURL, userAgent: userAgent, client: c}
  ({ r.1 with clients := r.1.clients ++
      [{ baseURL := r.2, userAgent := userAgent, client := some c }] },
   r.1.clients.length)

/-- `NewClientWithOptions(c, opts)`. -/
def NewClientWithOptions {H V D : Type} (L : Lib H V D) (h : Heap H) (c : Option H)
    (opts : ClientOptions) : Heap H × Nat :=
  -- client := NewClient(c)
  let r := NewClient L h c
  -- client.baseURL = opts.baseURL; client.userAgent = opts.userAgent
  ((r.1.setBaseURL r.2 opts.baseURL).setUserAgent r.2 opts.userAgent, r.2)

/-- The method `(*URL).Parse(ref)`. -/
def URL.Parse {H V D : Type} (L : Lib H V D) (u : Option URL) (ref : Bytes) :
    Run (Except GoError URL) :=
  match url.Parse L ref with
  | .error err => .done (.error err)
  | .ok refURL =>
    match URL.ResolveReference L u refURL with
    | .fault => .fault
    | .done r => .done (.ok r)

/-- The method `(*json.Encoder).Encode(v)` into a fresh `bytes.Buffer`: the buffer
content, which is the encoding of `v` followed by a newline. -/
def Encoder.Encode {H V D : Type} (L : Lib H V D) (escapeHTML : Bool) (v : V) :
    Except GoError Bytes :=
  match L.jsonMarshal escapeHTML v with
  | .error err => .error err
  | .ok b => .ok (b ++ [10])

/-- `http.NewRequest(method, url, body)`, the URL text being `urlStr`; `body` is `none`
for a nil reader, else the content of the buffer. -/
def http.NewRequest {H V D : Type} (L : Lib H V D) (method urlStr : Bytes)
    (body : Option Bytes) : Except GoError Request :=
  let method := if method = [] then ascii "GET" else method
  if !validMethod method then .error (.invalidMethod method)
  else
    match url.Parse L urlStr with
    | .error err => .error err
    | .ok u =>
      let u := { u with Host := L.removeEmptyPort u.Host }
      .ok { Method := method, URL := u, Header := [], Body := body,
            ContentLength := (body.getD []).length, Host := u.Host, ctx := {} }

/-- `(*Client).NewRequest(method, path, body)`; `body` is `none` for a nil interface. -/
def Client.NewRequest {H V D : Type} (L : Lib H V D) (c : Client H) (method path : Bytes)
    (body : Option V) : Run (Option Request × Option GoError) :=
  -- u, err := c.baseURL.Parse(path)
  match URL.Parse L c.baseURL path with
  | .fault => .fault
  | .done (.error err) => .done (none, some err)
  | .done (.ok u) =>
    -- var buf io.ReadWriter; if body != nil { ... err := enc.Encode(body) ... }
    let enc : Except GoError (Option Bytes) := match body with
      | none => .ok none
      | some v =>
        match Encoder.Encode L false v with
        | .error err => .error err
        | .ok b => .ok (some b)
    match enc with
    | .error err => .done (none, some err)
    | .ok buf =>
      -- req, err := http.NewRequest(method, u.String(), buf)
      match http.NewRequest L method u.String buf with
      | .error err => .done (none, some err)
      | .ok req =>
        -- req.Header.Set("Accept", "application/json")
        let req := { req with
          Header := req.Header.Set (ascii "Accept") (ascii "application/json") }
        -- if body != nil { req.Header.Set("Content-Type", "application/json") }
        let req := if body.isSome then { req with
          Header := req.Header.Set (ascii "Content-Type") (ascii "application/json") } else req
        -- if c.userAgent != "" { req.Header.Set("User-Agent", c.userAgent) }
        let req := if c.userAgent ≠ [] then { req with
          Header := req.Header.Set (ascii "User-Agent") c.userAgent } else req
        .done (some req, none)

/-- What `Do` returns: the response, the error, and the value the destination holds
afterwards (`none` for a nil destination). -/
structure DoResult (D : Type) where
  resp : Option Response
  err : Option GoError
  v : Option D
  deriving DecidableEq, Repr

/-- `(*Client).Do(ctx, req, v)`.  A nil context, a nil request, a nil executor, and an
executor that returns neither a response nor an error make the code fault. -/
def Client.Do {H V D : Type} (L : Lib H V D) (c : Client H) (ctx : Option Ctx)
    (req : Option Request) (v : Option D) : Run (DoResult D) :=
  match req, ctx, c.client with
  | some req, some ctx, some hc =>
    -- req = req.WithContext(ctx); resp, err := c.client.Do(req)
    match L.httpDo hc { req with ctx := ctx } with
    | (_, some err) =>
      -- select { case <-ctx.Done(): ...; default: ... }
      match ctx.err with
      | some text => .done { resp := none, err := some (.wrap err text), v := v }
      | none => .done { resp := none, err := some err, v := v }
    | (none, none) => .fault
    | (some resp, none) =>
      -- data, err := ioutil.ReadAll(resp.Body)
      match resp.readAll with
      | (_, some err) =>
        .done { resp := none, err := some (.wrap err "unable to read body"), v := v }
      | (data, none) =>
        -- err = resp.Body.Close()
        match resp.close with
        | some err =>
          .done { resp := none, err := some (.wrap err "unable to close body"), v := v }
        | none =>
          match v with
          | some d =>
            if data.length ≠ 0 then
              -- err = json.Unmarshal(data, v)
              match L.jsonUnmarshal data d with
              | (d, none) => .done { resp := some resp, err := none, v := some d }
              | (d, some .EOF) => .done { resp := some resp, err := none, v := some d }
              | (d, some err) =>
                .done { resp := some resp,
                        err := some (.wrap err "unable to parse API response"), v := some d }
            else .done { resp := some resp, err := none, v := v }
          | none => .done { resp := some resp, err := none, v := v }
  | _, _, _ => .fault

/-! ## rates.go -/

/-- Request bodies of the concrete library: a text, a function value (which has no
JSON encoding), or a struct whose only field, `a`, is unexported (which encodes as the
empty object). -/
inductive DemoValue where
  | text (s : Bytes)
  | func
  | hidden (a : Nat)
  deriving DecidableEq, Repr

/-- The struct `foo` of `TestDo`. -/
structure Foo where
  A : Bytes
  deriving DecidableEq, Repr

/-- The response body of `TestDo`. -/
def demoData : Bytes := ascii "\x7b\"A\":\"a\"\x7d"

/-- A response with the body of `TestDo` that is read and closed without error. -/
def demoResponse : Response :=
  { StatusCode := 200, readAll := (demoData, none), close := none }

/-- A response whose body cannot be read. -/
def brokenResponse : Response :=
  { StatusCode := 200, readAll := ([], some (.other "unexpected EOF")), close := none }

/-- A concrete library over a given executor response and decoder.  It covers what the
instances below need: authorities that are a plain host name, path resolution for a
reference path that is empty or absolute and free of dot segments, the JSON encoding of
the three kinds of `DemoValue`, and an executor that always answers with `resp`.  (The
query parser is only called on a non-empty query, which no instance below makes it
do.) -/
def demoLibOf {D : Type} (resp : Response) (decoder : Bytes → D → D × Option GoError) :
    Lib Unit DemoValue D where
  parseAuthority authority := .ok (none, authority)
  resolvePath base ref := if ref = [] then base else ref
  parseQuery _ := []
  removeEmptyPort host := host
  jsonMarshal _ v :=
    match v with
    | .text s => .ok (34 :: (s ++ [34]))
    | .func => .error (.other "json: unsupported type: func() error")
    | .hidden _ => .ok (ascii "\x7b\x7d")
  jsonUnmarshal := decoder
  DefaultClient := ()
  httpDo _ _ := (some resp, none)

/-- The concrete library with the response and the destination of `TestDo`. -/
def demoLib : Lib Unit DemoValue Foo :=
  demoLibOf demoResponse (fun data d =>
    if data = demoData then ({ A := ascii "a" }, none)
    else (d, some (.other "invalid character")))

/-- The concrete library with a destination whose `UnmarshalJSON` method reports
`io.EOF`, which `json.Unmarshal` passes on. -/
def eofLib : Lib Unit DemoValue Foo :=
  { demoLib with jsonUnmarshal := fun _ d => (d, some .EOF) }

/-- The concrete library with an executor whose response body cannot be read. -/
def brokenBodyLib : Lib Unit DemoValue Foo :=
  { demoLib with httpDo := fun _ _ => (some brokenResponse, none) }

/-- The client that `NewClient(nil)` builds over the concrete library. -/
def demoClient : Client Unit :=
  { baseURL := some { Scheme := ascii "https", Host := ascii "api.sandbox.transferwise.tech" },
    userAgent := userAgent, client := some () }

/-- The request `NewRequest("GET", "/test", body)` builds for `demoClient`, `body`
being the text `x`. -/
def demoRequest : Request :=
  { Method := ascii "GET",
    URL := { Scheme := ascii "https", Host := ascii "api.sandbox.transferwise.tech",
             Path := ascii "/test" },
    Header := [(ascii "Accept", [ascii "application/json"]),
               (ascii "Content-Type", [ascii "application/json"]),
               (ascii "User-Agent", [userAgent])],
    Body := some (ascii "\"x\"\n"),
    ContentLength := 4,
    Host := ascii "api.sandbox.transferwise.tech",
    ctx := {} }

/-- The heap before anything is allocated. -/
def emptyHeap : Heap Unit := { urls := [], clients := [] }

/-- The URL the concrete library parses `SandboxURL` to. -/
def demoBase : URL := { Scheme := ascii "https", Host := ascii "api.sandbox.transferwise.tech" }

/-- The client that `NewClientWithOptions` builds from nil and an empty `ClientOptions`:
no base address, no user-agent. -/
def nilClient : Client Unit := { baseURL := none, userAgent := [], client := some () }

/-- The URL that `demoBase.Parse("/test#\x00")` gives. -/
def fragmentURL : URL :=
  { Scheme := ascii "https", Host := ascii "api.sandbox.transferwise.tech",
    Path := ascii "/test", Fragment := [0], RawFragment := [0] }

/-- The request `NewRequest("GET", "/test#\x00", nil)` builds for `demoClient`: the
null byte is in the fragment. -/
def fragmentRequest : Request :=
  { Method := ascii "GET",
    URL := { Scheme := ascii "https", Host := ascii "api.sandbox.transferwise.tech",
             Path := ascii "/test", Fragment := [0] },
    Header := [(ascii "Accept", [ascii "application/json"]),
               (ascii "User-Agent", [userAgent])],
    Body := none, ContentLength := 0,
    Host := ascii "api.sandbox.transferwise.tech", ctx := {} }

/-- The request `NewRequest("GET", "/test", body)` builds for `demoClient` when `body`
is a struct whose only field is unexported. -/
def hiddenRequest : Request :=
  { Method := ascii "GET",
    URL := { Scheme := ascii "https", Host := ascii "api.sandbox.transferwise.tech",
             Path := ascii "/test" },
    Header := [(ascii "Accept", [ascii "application/json"]),
               (ascii "Content-Type", [ascii "application/json"]),
               (ascii "User-Agent", [userAgent])],
    Body := some (ascii "\x7b\x7d\n"),
    ContentLength := 3,
    Host := ascii "api.sandbox.transferwise.tech",
    ctx := {} }

theorem sliceBytes_middle (x y : Nat) (s : Bytes) :
    sliceBytes (x :: (s ++ [y])) 1 (((x :: (s ++ [y])).length : Int) - 1) = .done s := by
  unfold sliceBytes
  have h1 : ((x :: (s ++ [y])).length : Int) - 1 = ((s.length + 1 : Nat) : Int) := by
    simp
  rw [h1]
  have h2 : (0 : Int) ≤ 1 ∧ (1 : Int) ≤ ((s.length + 1 : Nat) : Int) ∧
      ((s.length + 1 : Nat) : Int) ≤ ((x :: (s ++ [y])).length : Int) := by
    refine ⟨by omega, by omega, ?_⟩
    simp
  rw [if_pos h2]
  simp

theorem sliceBytes_short (b : Bytes) (h : b.length < 2) :
    sliceBytes b 1 ((b.length : Int) - 1) = .fault := by
  unfold sliceBytes
  rw [if_neg]
  omega

theorem bytes_ends (b : Bytes) (h : 2 ≤ b.length) :
    ∃ x y s, b = x :: (s ++ [y]) := by
  match b, h with
  | x :: rest, h =>
    have hne : rest ≠ [] := by
      intro h0
      subst h0
      simp at h
    exact ⟨x, rest.getLast hne, rest.dropLast, by rw [List.dropLast_append_getLast hne]⟩

theorem unmarshal_quoted {τ ε : Type} (parse : Bytes → Bytes → τ × Option ε)
    (x y : Nat) (s : Bytes) :
    Time.UnmarshalJSON parse (x :: (s ++ [y])) =
      .done (if (parse RFC3339 s).2.isSome then parse fallbackLayout s else parse RFC3339 s) := by
  unfold Time.UnmarshalJSON
  rw [sliceBytes_middle]

/-- C2: for every quoted input, `UnmarshalJSON` tries RFC3339 first and the colon-less
layout second: a successful RFC3339 parse is the result; otherwise a successful fallback
parse is the result; an error is returned exactly when both attempts fail, and it is the
error of the fallback attempt. -/
theorem C2_first_success_or_last_failure {τ ε : Type}
    (parse : Bytes → Bytes → τ × Option ε) (s : Bytes) :
    (∀ p, parse RFC3339 s = (p, none) →
        Time.UnmarshalJSON parse (34 :: (s ++ [34])) = .done (p, none)) ∧
    (∀ p, (parse RFC3339 s).2 ≠ none → parse fallbackLayout s = (p, none) →
        Time.UnmarshalJSON parse (34 :: (s ++ [34])) = .done (p, none)) ∧
    (∀ e, (∃ p, Time.UnmarshalJSON parse (34 :: (s ++ [34])) = .done (p, some e)) ↔
        ((parse RFC3339 s).2 ≠ none ∧ (parse fallbackLayout s).2 = some e)) := by
  rw [unmarshal_quoted]
  refine ⟨?_, ?_, ?_⟩
  · intro p h
    simp [h]
  · intro p h1 h2
    have h3 : (parse RFC3339 s).2.isSome = true := by
      cases h : (parse RFC3339 s).2 with
      | none => exact absurd h h1
      | some e => rfl
    simp [h3, h2]
  · intro e
    cases h : (parse RFC3339 s).2 with
    | none =>
      simp only [Option.isSome_none, Bool.false_eq_true, if_false]
      constructor
      · rintro ⟨p, hp⟩
        have := congrArg (fun r => match r with | .done q => q.2 | .fault => none) hp
        simp [h] at this
      · rintro ⟨h1, _⟩
        exact absurd rfl h1
    | some e1 =>
      simp only [Option.isSome_some, if_true]
      constructor
      · rintro ⟨p, hp⟩
        refine ⟨by simp, ?_⟩
        have := congrArg (fun r => match r with | .done q => q.2 | .fault => none) hp
        simpa using this
      · rintro ⟨_, h2⟩
        exact ⟨(parse fallbackLayout s).1, by rw [← h2]⟩

theorem C2_witness :
    Time.UnmarshalJSON timeParse (34 :: (ascii "2018-08-31T10:43:31+0000" ++ [34])) =
      .done ({ unix := 1535712211, nsec := 0, offset := 0 }, none) :=
  (C2_first_success_or_last_failure timeParse (ascii "2018-08-31T10:43:31+0000")).2.1
    { unix := 1535712211, nsec := 0, offset := 0 } (by decide) (by decide)

/-- C10: `UnmarshalJSON` drops the first and the last byte of its raw input whatever
they are.  For every raw input of at least two bytes the slice `s[1:len(s)-1]` is in
bounds and the call returns normally, with a result that does not depend on the two
dropped bytes; for a raw input of fewer than two bytes the slice is out of range and the
call faults. -/
theorem C10_slice_bounds_tight {τ ε : Type} (parse : Bytes → Bytes → τ × Option ε)
    (b : Bytes) :
    (2 ≤ b.length →
      sliceBytes b 1 ((b.length : Int) - 1) = .done ((b.drop 1).take (b.length - 2)) ∧
      (∃ r, Time.UnmarshalJSON parse b = .done r) ∧
      Time.UnmarshalJSON parse b =
        Time.UnmarshalJSON parse (34 :: ((b.drop 1).take (b.length - 2) ++ [34]))) ∧
    (b.length < 2 →
      sliceBytes b 1 ((b.length : Int) - 1) = .fault ∧
      Time.UnmarshalJSON parse b = .fault) := by
  constructor
  · intro h
    obtain ⟨x, y, s, rfl⟩ := bytes_ends b h
    have hmid : ((x :: (s ++ [y])).drop 1).take ((x :: (s ++ [y])).length - 2) = s := by
      simp
    rw [hmid, sliceBytes_middle, unmarshal_quoted, unmarshal_quoted]
    exact ⟨rfl, ⟨_, rfl⟩, rfl⟩
  · intro h
    have hs := sliceBytes_short b h
    refine ⟨hs, ?_⟩
    unfold Time.UnmarshalJSON
    rw [hs]

theorem C10_witness :
    (∃ r, Time.UnmarshalJSON timeParse (ascii "ab") = .done r) ∧
    Time.UnmarshalJSON timeParse (ascii "5") = .fault :=
  ⟨((C10_slice_bounds_tight timeParse (ascii "ab")).1 (by decide)).2.1,
   ((C10_slice_bounds_tight timeParse (ascii "5")).2 (by decide)).2⟩

theorem getnum_two (n : Nat) (h : n < 100) (rest : Bytes) (fixed : Bool) :
    getnum ((48 + n / 10) :: (48 + n % 10) :: rest) fixed = ((n : Int), rest, false) := by
  have h1 : 48 + n / 10 ≤ 57 := by omega
  have h2 : 48 + n % 10 ≤ 57 := by omega
  simp [getnum, isDigit, h1, h2]
  omega

theorem le_digitsVal (ds : List Nat) (x : Nat) : x ≤ digitsVal x ds := by
  induction ds generalizing x with
  | nil => simp [digitsVal]
  | cons d ds ih =>
    have := ih (x * 10 + d)
    simp only [digitsVal, List.foldl_cons] at this ⊢
    omega

theorem leadingInt_digits (ds : List Nat) (hd : ∀ f ∈ ds, f < 10) (x : Nat)
    (hx : digitsVal x ds ≤ 922337203685477580) :
    leadingInt x (ds.map (fun f => 48 + f)) = some (digitsVal x ds, []) := by
  induction ds generalizing x with
  | nil => simp [leadingInt, digitsVal]
  | cons d ds ih =>
    have hd0 : d < 10 := hd d (by simp)
    have hle := le_digitsVal ds (x * 10 + d)
    have hx2 : digitsVal (x * 10 + d) ds ≤ 922337203685477580 := by
      simpa [digitsVal] using hx
    have e : x * 10 + (48 + d) - 48 = x * 10 + d := by omega
    have c1 : ¬ (48 + d < 48 ∨ 48 + d > 57) := by omega
    have c2 : ¬ (x > 2 ^ 63 / 10) := by norm_num; omega
    have c3 : ¬ (x * 10 + (48 + d) - 48 > 2 ^ 63) := by rw [e]; norm_num; omega
    simp only [List.map_cons, leadingInt, if_neg c1, if_neg c2, if_neg c3]
    rw [e]
    rw [ih (fun f hf => hd f (by simp [hf])) _ hx2]
    simp [digitsVal]

theorem atoi_digits (ds : List Nat) (hd : ∀ f ∈ ds, f < 10)
    (hx : digitsVal 0 ds ≤ 922337203685477580) :
    atoi (ds.map (fun f => 48 + f)) = some ((digitsVal 0 ds : Nat) : Int) := by
  cases ds with
  | nil => simp [atoi, leadingInt, digitsVal]
  | cons d ds =>
    have h1 : ¬ (48 + d = 45) := by omega
    have h2 : ¬ (48 + d = 45 ∨ 48 + d = 43) := by omega
    have := leadingInt_digits (d :: ds) hd 0 hx
    simp only [List.map_cons] at this
    have h3 : ¬ (48 + d = 43) := by omega
    simp [atoi, h1, h3, this]

theorem digitsVal_lt (ds : List Nat) (hd : ∀ f ∈ ds, f < 10) (x : Nat) :
    digitsVal x ds < (x + 1) * 10 ^ ds.length := by
  induction ds generalizing x with
  | nil => simp [digitsVal]
  | cons d ds ih =>
    have hd0 : d < 10 := hd d (by simp)
    have h1 := ih (fun f hf => hd f (by simp [hf])) (x * 10 + d)
    have h2 : (x * 10 + d + 1) * 10 ^ ds.length ≤ (x + 1) * 10 ^ (ds.length + 1) := by
      rw [pow_succ, ← mul_assoc, mul_comm ((x + 1) * 10 ^ ds.length) 10, ← mul_assoc]
      apply Nat.mul_le_mul_right
      omega
    simp only [digitsVal, List.foldl_cons, List.length_cons] at h1 ⊢
    omega

theorem parseNanoseconds_digits (ds : List Nat) (hd : ∀ f ∈ ds, f < 10) (rest : Bytes) :
    parseNanoseconds (46 :: (ds.map (fun f => 48 + f) ++ rest)) (1 + ds.length) =
      (nanos ds, none, false) := by
  have hk : min ds.length 9 ≤ ds.length := Nat.min_le_left _ _
  have htake : ∀ k, k ≤ ds.length →
      (ds.map (fun f => 48 + f) ++ rest).take k = (ds.take k).map (fun f => 48 + f) := by
    intro k hk
    rw [List.take_append_of_le_length (by simpa using hk), List.map_take]
  have hd9 : ∀ f ∈ ds.take 9, f < 10 := fun f hf => hd f (List.mem_of_mem_take hf)
  have hlt := digitsVal_lt (ds.take 9) hd9 0
  have hlen : (ds.take 9).length ≤ 9 := by simp
  have hpow : 10 ^ (ds.take 9).length ≤ 10 ^ 9 := Nat.pow_le_pow_right (by norm_num) hlen
  have hbound : digitsVal 0 (ds.take 9) ≤ 922337203685477580 := by
    have : digitsVal 0 (ds.take 9) < 10 ^ 9 := by
      calc digitsVal 0 (ds.take 9) < (0 + 1) * 10 ^ (ds.take 9).length := hlt
        _ ≤ 10 ^ 9 := by simpa using hpow
    omega
  have hatoi := atoi_digits (ds.take 9) hd9 hbound
  unfold parseNanoseconds
  by_cases hlong : 1 + ds.length > 10
  · have h9 : 9 ≤ ds.length := by omega
    have hmin : min ds.length 9 = 9 := by omega
    simp only [List.getD_cons_zero, true_or, not_true_eq_false, if_false, if_pos hlong]
    have e : (List.take 10 (List.take 10 (46 :: (ds.map (fun f => 48 + f) ++ rest)))).drop 1 =
        (ds.take 9).map (fun f => 48 + f) := by
      simp [List.take_take, htake 9 h9]
    rw [e, hatoi]
    simp [nanos, hmin]
  · have h9 : ds.length ≤ 9 := by omega
    have hmin : min ds.length 9 = ds.length := by omega
    have ht : ds.take 9 = ds := List.take_of_length_le h9
    simp only [List.getD_cons_zero, true_or, not_true_eq_false, if_false, if_neg hlong]
    have e : (List.take (1 + ds.length) (46 :: (ds.map (fun f => 48 + f) ++ rest))).drop 1 =
        (ds.take 9).map (fun f => 48 + f) := by
      rw [Nat.add_comm 1, List.take_succ_cons, List.drop_one, List.tail_cons, htake _ le_rfl, ht]
      simp
    rw [e, hatoi]
    have e2 : 10 - (1 + ds.length) = 9 - ds.length := by omega
    simp [nanos, hmin, e2]

theorem parseStd_year (st : Fields) (y : Nat) (hy : y ≤ 9999) (rest : Bytes) :
    parseStd .stdLongYear st (digits4 y ++ rest) =
      { st := { st with year := y }, value := rest } := by
  have h0 : 48 + y / 1000 ≤ 57 := by omega
  have hd : ∀ f ∈ [y / 1000, y / 100 % 10, y / 10 % 10, y % 10], f < 10 := by
    intro f hf
    simp at hf
    omega
  have hv : digitsVal 0 [y / 1000, y / 100 % 10, y / 10 % 10, y % 10] = y := by
    simp [digitsVal]
    omega
  have ha := atoi_digits _ hd (by rw [hv]; omega)
  rw [hv] at ha
  simp only [List.map_cons, List.map_nil] at ha
  simp [parseStd, digits4, isDigit, h0, ha]

theorem parseStd_month (st : Fields) (m : Nat) (h1 : 1 ≤ m) (h2 : m ≤ 12) (rest : Bytes) :
    parseStd .stdZeroMonth st (digits2 m ++ rest) =
      { st := { st with month := m }, value := rest } := by
  have hm : ¬ ((m : Int) ≤ 0) := by omega
  have hm2 : ¬ ((12 : Int) < m) := by omega
  simp [parseStd, digits2, getnum_two m (by omega), hm, hm2]

theorem parseStd_day (st : Fields) (n : Nat) (h : n < 100) (rest : Bytes) :
    parseStd .stdZeroDay st (digits2 n ++ rest) =
      { st := { st with day := n }, value := rest } := by
  simp [parseStd, digits2, getnum_two n h]

theorem parseStd_hour (st : Fields) (n : Nat) (h : n ≤ 23) (rest : Bytes) :
    parseStd .stdHour st (digits2 n ++ rest) =
      { st := { st with hour := n }, value := rest } := by
  have h1 : ¬ ((24 : Int) ≤ n) := by omega
  simp [parseStd, digits2, getnum_two n (by omega), h1]

theorem parseStd_minute (st : Fields) (n : Nat) (h : n ≤ 59) (rest : Bytes) :
    parseStd .stdZeroMinute st (digits2 n ++ rest) =
      { st := { st with min := n }, value := rest } := by
  have h1 : ¬ ((60 : Int) ≤ n) := by omega
  simp [parseStd, digits2, getnum_two n (by omega), h1]

theorem takeWhile_digits (ds : List Nat) (hd : ∀ f ∈ ds, f < 10) (c : Nat)
    (hc : ¬ (48 ≤ c ∧ c ≤ 57)) (rest : Bytes) :
    (ds.map (fun f => 48 + f) ++ c :: rest).takeWhile (fun c => decide (48 ≤ c ∧ c ≤ 57)) =
      ds.map (fun f => 48 + f) := by
  induction ds with
  | nil => simp [List.takeWhile, hc]
  | cons d ds ih =>
    have hd0 : d < 10 := hd d (by simp)
    have h1 : 48 + d ≤ 57 := by omega
    simp only [List.map_cons, List.cons_append, List.takeWhile_cons]
    simp only [Nat.le_add_right, h1, and_self, decide_True, if_true]
    rw [ih (fun f hf => hd f (by simp [hf]))]

theorem parseStd_second (st : Fields) (n : Nat) (h : n ≤ 59) (fs : List Nat)
    (hd : ∀ f ∈ fs, f < 10) (c : Nat) (hc : c = 43 ∨ c = 45) (rest : Bytes) :
    parseStd .stdZeroSecond st (digits2 n ++ (fracText fs ++ c :: rest)) =
      { st := { st with sec := n, nsec := if fs = [] then st.nsec else nanos fs },
        value := c :: rest } := by
  have h1 : ¬ ((60 : Int) ≤ n) := by omega
  cases fs with
  | nil =>
    have c1 : ¬ (c = 46) := by omega
    have c2 : ¬ (c = 44) := by omega
    simp [parseStd, digits2, getnum_two n (by omega), h1, fracText, c1, c2]
  | cons f fs =>
    have hf : f < 10 := hd f (by simp)
    have hf1 : 48 + f ≤ 57 := by omega
    have hc2 : ¬ (48 ≤ c ∧ c ≤ 57) := by omega
    have htw := takeWhile_digits fs (fun g hg => hd g (by simp [hg])) c hc2 rest
    have htw2 : List.takeWhile (fun c => decide (48 ≤ c) && decide (c ≤ 57))
        (fs.map (fun f => 48 + f) ++ c :: rest) = fs.map (fun f => 48 + f) := by
      have e : (fun c => decide (48 ≤ c) && decide (c ≤ 57)) =
          (fun c : Nat => decide (48 ≤ c ∧ c ≤ 57)) := by
        funext x
        simp
      rw [e, htw]
    have h0 : ¬ ((n : Int) < 0) := by omega
    have hpn := parseNanoseconds_digits (f :: fs) hd (c :: rest)
    simp only [List.map_cons, List.length_cons, List.cons_append] at hpn
    have hn : 2 + (fs.map (fun f => 48 + f)).length = 1 + (fs.length + 1) := by
      simp; omega
    have hdrop : List.drop (1 + (fs.length + 1))
        (46 :: (48 + f) :: (fs.map (fun f => 48 + f) ++ c :: rest)) = c :: rest := by
      rw [show 1 + (fs.length + 1) = (fs.map (fun f => 48 + f)).length + 1 + 1 by simp; omega]
      simp
    have e12 : 1 + (fs.length + 1) = 2 + fs.length := by omega
    rw [e12] at hpn hdrop
    simp only [parseStd, digits2, fracText, List.cons_append, List.nil_append, List.map_cons,
      getnum_two n (by omega)]
    simp only [Bool.false_eq_true, if_false, h1, decide_False, Bool.or_false]
    simp [isDigit, hf1, htw2, hn, hpn, hdrop, h0]

theorem zoneNum_digits (west : Bool) (h m : Nat) (hh : h ≤ 23) (hm : m ≤ 59) :
    zoneNum (if west then 45 else 43) [48 + h / 10, 48 + h % 10] [48 + m / 10, 48 + m % 10] =
      (if west then -(((h : Int) * 60 + m) * 60) else ((h : Int) * 60 + m) * 60, none, false) := by
  have g0 : getnum (ascii "00") true = (0, [], false) := by decide
  have h1 : ¬ ((24 : Int) < h) := by omega
  have h2 : ¬ ((60 : Int) < m) := by omega
  cases west <;>
    simp [zoneNum, getnum_two h (by omega), getnum_two m (by omega), g0, h1, h2]

theorem parseStd_colonTZ (st : Fields) (d : DateTime) (hh : d.offHour ≤ 23) (hm : d.offMin ≤ 59) :
    parseStd .stdISO8601ColonTZ st (d.zone true) =
      { st := { st with zoneOffset := d.offset }, value := [] } := by
  have hs : ¬ ((if d.west = true then 45 else 43) = 90) := by split <;> omega
  have hz := zoneNum_digits d.west d.offHour d.offMin hh hm
  simp [parseStd, DateTime.zone, digits2, hs, hz, DateTime.offset]

theorem parseStd_TZ (st : Fields) (d : DateTime) (hh : d.offHour ≤ 23) (hm : d.offMin ≤ 59) :
    parseStd .stdISO8601TZ st (d.zone false) =
      { st := { st with zoneOffset := d.offset }, value := [] } := by
  have hs : ¬ ((if d.west = true then 45 else 43) = 90) := by split <;> omega
  have hz := zoneNum_digits d.west d.offHour d.offMin hh hm
  simp [parseStd, DateTime.zone, digits2, hs, hz, DateTime.offset]

theorem parseStd_colonTZ_short (st : Fields) (d : DateTime) :
    (parseStd .stdISO8601ColonTZ st (d.zone false)).rangeErrString = none ∧
    (parseStd .stdISO8601ColonTZ st (d.zone false)).failed = true := by
  have hs : ¬ ((if d.west = true then 45 else 43) = 90) := by split <;> omega
  simp [parseStd, DateTime.zone, digits2, hs]

theorem tokenize_RFC3339 :
    tokenize 0 [] RFC3339 = some ([([], .stdLongYear), ([45], .stdZeroMonth), ([45], .stdZeroDay),
      ([84], .stdHour), ([58], .stdZeroMinute), ([58], .stdZeroSecond),
      ([], .stdISO8601ColonTZ)], []) := by
  decide

theorem tokenize_fallbackLayout :
    tokenize 0 [] fallbackLayout = some ([([], .stdLongYear), ([45], .stdZeroMonth),
      ([45], .stdZeroDay), ([84], .stdHour), ([58], .stdZeroMinute), ([58], .stdZeroSecond),
      ([], .stdISO8601TZ)], []) := by
  decide

theorem parseLoop_common (d : DateTime) (hv : d.Valid) (zstd : Std) (colon : Bool) :
    parseLoop [([], .stdLongYear), ([45], .stdZeroMonth), ([45], .stdZeroDay),
      ([84], .stdHour), ([58], .stdZeroMinute), ([58], .stdZeroSecond), ([], zstd)] [] {}
      (d.text colon) = parseLoop [([], zstd)] [] d.fields (d.zone colon) := by
  obtain ⟨hy, hm1, hm2, hd1, hd2, hh, hmi, hs, hf, hoh, hom⟩ := hv
  have hday : d.day < 100 := by
    have : daysIn d.month d.year ≤ 31 := by
      have hm : d.month = 1 ∨ d.month = 2 ∨ d.month = 3 ∨ d.month = 4 ∨ d.month = 5 ∨
          d.month = 6 ∨ d.month = 7 ∨ d.month = 8 ∨ d.month = 9 ∨ d.month = 10 ∨
          d.month = 11 ∨ d.month = 12 := by omega
      rcases hm with h | h | h | h | h | h | h | h | h | h | h | h <;>
        simp [daysIn, daysBefore, h]
      split <;> omega
    omega
  have hzone : d.zone colon = (if d.west then 45 else 43) ::
      (digits2 d.offHour ++ (if colon then [58] else []) ++ digits2 d.offMin) := by
    simp [DateTime.zone]
  have hsign : (if d.west then 45 else 43) = 43 ∨ (if d.west then 45 else 43) = 45 := by
    split <;> simp
  rw [DateTime.text, DateTime.common, hzone]
  simp only [List.append_assoc, List.singleton_append, List.cons_append, List.nil_append]
  simp only [parseLoop, skip, skipAux]
  rw [parseStd_year _ _ hy]
  simp only [parseLoop, skip, skipAux]
  simp only [show ¬ ((45 : Nat) = 32) by decide, if_false, ne_eq, not_true_eq_false]
  rw [parseStd_month _ _ hm1 hm2]
  simp only [show ¬ ((45 : Nat) = 32) by decide, if_false, ne_eq, not_true_eq_false,
    Bool.false_eq_true]
  rw [parseStd_day _ _ hday]
  simp only [show ¬ ((84 : Nat) = 32) by decide, if_false, ne_eq, not_true_eq_false,
    Bool.false_eq_true]
  rw [parseStd_hour _ _ hh]
  simp only [show ¬ ((58 : Nat) = 32) by decide, if_false, ne_eq, not_true_eq_false,
    Bool.false_eq_true]
  rw [parseStd_minute _ _ hmi]
  simp only [show ¬ ((58 : Nat) = 32) by decide, if_false, ne_eq, not_true_eq_false,
    Bool.false_eq_true]
  rw [parseStd_second _ _ hs _ hf _ hsign]
  simp [DateTime.fields]

theorem finish_fields (d : DateTime) (hv : d.Valid) :
    finish { d.fields with zoneOffset := d.offset } = .ok d.time := by
  obtain ⟨hy, hm1, hm2, hd1, hd2, hh, hmi, hs, hf, hoh, hom⟩ := hv
  have h1 : ¬ ((d.day : Int) < 1) := by omega
  have h2 : ¬ ((d.day : Int) > daysIn d.month d.year) := by omega
  have h3 : d.offset ≠ -1 := by
    unfold DateTime.offset
    split <;> omega
  have h4 : ¬ ((d.day : Int) < 0) := by omega
  have h5 : ¬ ((d.month : Int) < 0) := by omega
  have h6 : ¬ (daysIn d.month d.year < (d.day : Int)) := by omega
  simp [finish, DateTime.fields, h1, h3, h4, h5, h6, DateTime.time]

theorem timeParse_colon (d : DateTime) (hv : d.Valid) :
    timeParse RFC3339 (d.text true) = (d.time, none) := by
  have hz := parseStd_colonTZ d.fields d hv.2.2.2.2.2.2.2.2.2.1 hv.2.2.2.2.2.2.2.2.2.2
  have hl : parseLoop [([], .stdISO8601ColonTZ)] [] d.fields (d.zone true) =
      .ok { d.fields with zoneOffset := d.offset } := by
    simp [parseLoop, skip, skipAux, hz]
  simp only [timeParse, timeParse?, tokenize_RFC3339, parseLoop_common d hv, hl]
  have hf := finish_fields d hv
  simp only [bind, Except.bind, hf]
  rfl

theorem timeParse_nocolon (d : DateTime) (hv : d.Valid) :
    timeParse fallbackLayout (d.text false) = (d.time, none) := by
  have hz := parseStd_TZ d.fields d hv.2.2.2.2.2.2.2.2.2.1 hv.2.2.2.2.2.2.2.2.2.2
  have hl : parseLoop [([], .stdISO8601TZ)] [] d.fields (d.zone false) =
      .ok { d.fields with zoneOffset := d.offset } := by
    simp [parseLoop, skip, skipAux, hz]
  simp only [timeParse, timeParse?, tokenize_fallbackLayout, parseLoop_common d hv, hl]
  have hf := finish_fields d hv
  simp only [bind, Except.bind, hf]
  rfl

theorem timeParse_nocolon_RFC3339 (d : DateTime) (hv : d.Valid) :
    (timeParse RFC3339 (d.text false)).2.isSome = true := by
  obtain ⟨hr, hfail⟩ := parseStd_colonTZ_short d.fields d
  have hl : ∃ e, parseLoop [([], .stdISO8601ColonTZ)] [] d.fields (d.zone false) = .error e := by
    simp [parseLoop, skip, skipAux, hr, hfail]
  obtain ⟨e, he⟩ := hl
  simp only [timeParse, timeParse?, tokenize_RFC3339, parseLoop_common d hv, he]
  rfl

/-- C1: for every date-time with a numeric UTC offset, `UnmarshalJSON` applied to the
quoted RFC 3339 text (offset `+hh:mm` or `-hh:mm`) and to the quoted text with the colon
removed from the offset (`+hhmm` or `-hhmm`) both return no error and store the same
time, the instant the date-time denotes. -/
theorem C1_colon_and_colonless_same_instant (d : DateTime) (hv : d.Valid) :
    Time.UnmarshalJSON timeParse (34 :: (d.text true ++ [34])) = .done (d.time, none) ∧
    Time.UnmarshalJSON timeParse (34 :: (d.text false ++ [34])) = .done (d.time, none) := by
  constructor
  · rw [unmarshal_quoted, timeParse_colon d hv]
    rfl
  · rw [unmarshal_quoted, timeParse_nocolon_RFC3339 d hv, timeParse_nocolon d hv]
    rfl

theorem C1_witness :
    Time.UnmarshalJSON timeParse (ascii "\"2018-08-31T10:43:31+00:00\"") =
      .done ({ unix := 1535712211, nsec := 0, offset := 0 }, none) ∧
    Time.UnmarshalJSON timeParse (ascii "\"2018-08-31T10:43:31+0000\"") =
      .done ({ unix := 1535712211, nsec := 0, offset := 0 }, none) :=
  C1_colon_and_colonless_same_instant
    { year := 2018, month := 8, day := 31, hour := 10, min := 43, sec := 31, frac := [],
      west := false, offHour := 0, offMin := 0 } (by decide)



/-! ### Request construction -/

theorem http_NewRequest_ok {H V D : Type} (L : Lib H V D) (method urlStr : Bytes)
    (body : Option Bytes) (r : Request) (h : http.NewRequest L method urlStr body = .ok r) :
    validMethod (if method = [] then ascii "GET" else method) = true ∧
    (∃ u, url.Parse L urlStr = .ok u ∧ r.URL = { u with Host := L.removeEmptyPort u.Host }) ∧
    r.Method = (if method = [] then ascii "GET" else method) ∧
    r.Header = [] ∧ r.Body = body := by
  unfold http.NewRequest at h
  by_cases hv : validMethod (if method = [] then ascii "GET" else method) = true
  · simp only [hv, Bool.not_true, Bool.false_eq_true, if_false] at h
    cases hu : url.Parse L urlStr with
    | error e => simp [hu] at h
    | ok u =>
      simp only [hu, Except.ok.injEq] at h
      subst h
      exact ⟨hv, ⟨u, rfl, rfl⟩, rfl, rfl, rfl⟩
  · simp [hv] at h

theorem http_NewRequest_invalid {H V D : Type} (L : Lib H V D) (method urlStr : Bytes)
    (body : Option Bytes)
    (h : validMethod (if method = [] then ascii "GET" else method) = false) :
    http.NewRequest L method urlStr body =
      .error (.invalidMethod (if method = [] then ascii "GET" else method)) := by
  unfold http.NewRequest
  simp [h]

/-- The headers `NewRequest` sets on the request returned by `http.NewRequest`. -/
theorem NewRequest_done {H V D : Type} (L : Lib H V D) (c : Client H) (method path : Bytes)
    (body : Option V) (req : Request)
    (h : Client.NewRequest L c method path body = .done (some req, none)) :
    ∃ u buf req0, URL.Parse L c.baseURL path = .done (.ok u) ∧
      (match body with
        | none => buf = none
        | some v => ∃ b, L.jsonMarshal false v = .ok b ∧ buf = some (b ++ [10])) ∧
      http.NewRequest L method u.String buf = .ok req0 ∧
      req.Header =
        (let h1 := Header.Set [] (ascii "Accept") (ascii "application/json")
         let h2 := if body.isSome then
           Header.Set h1 (ascii "Content-Type") (ascii "application/json") else h1
         if c.userAgent ≠ [] then Header.Set h2 (ascii "User-Agent") c.userAgent else h2) ∧
      req.Body = buf ∧ req.URL = req0.URL ∧ req.Method = req0.Method := by
  unfold Client.NewRequest at h
  cases hp : URL.Parse L c.baseURL path with
  | fault => simp [hp] at h
  | done r =>
    cases r with
    | error e => simp [hp] at h
    | ok u =>
      simp only [hp] at h
      cases body with
      | none =>
        simp only at h
        cases hn : http.NewRequest L method u.String none with
        | error e => simp [hn] at h
        | ok req0 =>
          obtain ⟨_, _, _, hH, hB⟩ := http_NewRequest_ok L _ _ _ _ hn
          simp only [hn, Run.done.injEq, Prod.mk.injEq, Option.some.injEq, and_true] at h
          refine ⟨u, none, req0, rfl, rfl, hn, ?_, ?_, ?_, ?_⟩
          · rw [← h]
            by_cases hua : c.userAgent = [] <;> simp [hua, hH]
          · rw [← h]
            by_cases hua : c.userAgent = [] <;> simp [hua, hB]
          · rw [← h]
            by_cases hua : c.userAgent = [] <;> simp [hua]
          · rw [← h]
            by_cases hua : c.userAgent = [] <;> simp [hua]
      | some v =>
        unfold Encoder.Encode at h
        cases hm : L.jsonMarshal false v with
        | error e => simp [hm] at h
        | ok b =>
          simp only [hm] at h
          cases hn : http.NewRequest L method u.String (some (b ++ [10])) with
          | error e => simp [hn] at h
          | ok req0 =>
            obtain ⟨_, _, _, hH, hB⟩ := http_NewRequest_ok L _ _ _ _ hn
            simp only [hn, Run.done.injEq, Prod.mk.injEq, Option.some.injEq, and_true] at h
            refine ⟨u, some (b ++ [10]), req0, rfl, ⟨b, hm, rfl⟩, hn, ?_, ?_, ?_, ?_⟩
            · rw [← h]
              by_cases hua : c.userAgent = [] <;> simp [hua, hH]
            · rw [← h]
              by_cases hua : c.userAgent = [] <;> simp [hua, hB]
            · rw [← h]
              by_cases hua : c.userAgent = [] <;> simp [hua]
            · rw [← h]
              by_cases hua : c.userAgent = [] <;> simp [hua]

theorem canonical_Accept : CanonicalMIMEHeaderKey (ascii "Accept") = ascii "Accept" := by
  decide

theorem canonical_ContentType :
    CanonicalMIMEHeaderKey (ascii "Content-Type") = ascii "Content-Type" := by
  decide

theorem canonical_UserAgent :
    CanonicalMIMEHeaderKey (ascii "User-Agent") = ascii "User-Agent" := by
  decide

/-- C3: on success of `NewRequest` the request carries `Accept: application/json`; it
carries `Content-Type: application/json` exactly when the body argument is non-nil (and
no `Content-Type` at all otherwise); it carries `User-Agent` with the client's
user-agent exactly when that string is non-empty (and no `User-Agent` otherwise). -/
theorem C3_request_headers {H V D : Type} (L : Lib H V D) (c : Client H)
    (method path : Bytes) (body : Option V) (req : Request)
    (h : Client.NewRequest L c method path body = .done (some req, none)) :
    StringMap.find req.Header (ascii "Accept") = some [ascii "application/json"] ∧
    (StringMap.find req.Header (ascii "Content-Type") = some [ascii "application/json"] ↔
      body ≠ none) ∧
    (body = none → StringMap.find req.Header (ascii "Content-Type") = none) ∧
    (StringMap.find req.Header (ascii "User-Agent") = some [c.userAgent] ↔
      c.userAgent ≠ []) ∧
    (c.userAgent = [] → StringMap.find req.Header (ascii "User-Agent") = none) := by
  obtain ⟨u, buf, req0, _, _, _, hH, _, _, _⟩ := NewRequest_done L c method path body req h
  have k1 : ¬ (ascii "Accept" = ascii "Content-Type") := by decide
  have k2 : ¬ (ascii "Accept" = ascii "User-Agent") := by decide
  have k3 : ¬ (ascii "Content-Type" = ascii "User-Agent") := by decide
  have k4 : ¬ (ascii "Content-Type" = ascii "Accept") := by decide
  have k5 : ¬ (ascii "User-Agent" = ascii "Accept") := by decide
  have k6 : ¬ (ascii "User-Agent" = ascii "Content-Type") := by decide
  rw [hH]
  cases body with
  | none =>
    by_cases hua : c.userAgent = []
    · simp [hua, Header.Set, StringMap.assign, StringMap.find, canonical_Accept, k1, k2]
    · simp [hua, Header.Set, StringMap.assign, StringMap.find, canonical_Accept,
        canonical_UserAgent, k1, k2, k5, k6]
  | some v =>
    by_cases hua : c.userAgent = []
    · simp [hua, Header.Set, StringMap.assign, StringMap.find, canonical_Accept,
        canonical_ContentType, k1, k2, k3, k4]
    · simp [hua, Header.Set, StringMap.assign, StringMap.find, canonical_Accept,
        canonical_ContentType, canonical_UserAgent, k1, k2, k3, k4, k5, k6]

theorem C3_witness :
    StringMap.find demoRequest.Header (ascii "Accept") = some [ascii "application/json"] ∧
    (StringMap.find demoRequest.Header (ascii "Content-Type") = some [ascii "application/json"] ↔
      some (DemoValue.text (ascii "x")) ≠ none) :=
  have h := C3_request_headers demoLib demoClient (ascii "GET") (ascii "/test")
    (some (.text (ascii "x"))) demoRequest rfl
  ⟨h.1, h.2.1⟩

theorem validMethod_control (method : Bytes) (h : ∃ b ∈ method, b < 32 ∨ b = 127) :
    validMethod (if method = [] then ascii "GET" else method) = false := by
  obtain ⟨b, hb, hc⟩ := h
  have hne : method ≠ [] := by
    intro h0
    subst h0
    simp at hb
  have htok : isTokenByte b = false := by
    unfold isTokenByte
    simp
    omega
  have hall : method.all isTokenByte = false := by
    rw [List.all_eq_false]
    exact ⟨b, hb, by simp [htok]⟩
  simp [validMethod, hne, hall]

/-- `url.Parse` rejects a text with a null byte before any `#`. -/
theorem url_Parse_null {H V D : Type} (L : Lib H V D) (path : Bytes)
    (h : 0 ∈ path.takeWhile (fun b => b ≠ 35)) :
    url.Parse L path =
      .error (.urlError "parse" (path.takeWhile (fun b => b ≠ 35))
        (.other "net/url: invalid control character in URL")) := by
  have hc : stringContainsCTLByte (path.takeWhile (fun b => b ≠ 35)) = true := by
    unfold stringContainsCTLByte
    rw [List.any_eq_true]
    exact ⟨0, h, by decide⟩
  unfold url.Parse url.parse cut
  simp only [hc, if_true]

/-- With a base address, resolving a reference does not fault. -/
theorem ResolveReference_done {H V D : Type} (L : Lib H V D) (base ref : URL) :
    ∃ r, URL.ResolveReference L (some base) ref = .done r := by
  unfold URL.ResolveReference
  simp only
  split_ifs <;> exact ⟨_, rfl⟩

theorem URL_Parse_done {H V D : Type} (L : Lib H V D) (base : URL) (path : Bytes) :
    ∃ r, URL.Parse L (some base) path = .done r := by
  unfold URL.Parse
  cases hp : url.Parse L path with
  | error e => exact ⟨_, rfl⟩
  | ok ref =>
    obtain ⟨r, hr⟩ := ResolveReference_done L base ref
    simp only [hr]
    exact ⟨_, rfl⟩

/-- C4: `NewRequest` returns an error and a nil request (a) when the method contains a
control character and (c) when the body cannot be JSON-encoded, both for a client whose
base address is set, and (b), for every client, when the path contains a null byte
before any `#`: the error is then the one of `url.Parse`, which names the text before
the `#`. -/
theorem C4_newRequest_errors {H V D : Type} (L : Lib H V D) (c : Client H)
    (method path : Bytes) (body : Option V) :
    ((∃ b ∈ method, b < 32 ∨ b = 127) → c.baseURL ≠ none →
      ∃ e, Client.NewRequest L c method path body = .done (none, some e)) ∧
    (0 ∈ path.takeWhile (fun b => b ≠ 35) →
      Client.NewRequest L c method path body =
        .done (none, some (.urlError "parse" (path.takeWhile (fun b => b ≠ 35))
          (.other "net/url: invalid control character in URL")))) ∧
    (∀ v e, body = some v → L.jsonMarshal false v = .error e → c.baseURL ≠ none →
      ∃ e2, Client.NewRequest L c method path body = .done (none, some e2)) := by
  refine ⟨?_, ?_, ?_⟩
  · intro hm hb
    obtain ⟨base, hbase⟩ := Option.ne_none_iff_exists'.mp hb
    have hv := validMethod_control method hm
    obtain ⟨r, hr⟩ := URL_Parse_done L base path
    unfold Client.NewRequest
    rw [hbase, hr]
    cases r with
    | error e => exact ⟨e, rfl⟩
    | ok u =>
      simp only
      cases body with
      | none =>
        simp only [http_NewRequest_invalid L method _ none hv]
        exact ⟨_, rfl⟩
      | some v =>
        cases hj : L.jsonMarshal false v with
        | error e =>
          simp only [Encoder.Encode, hj]
          exact ⟨e, rfl⟩
        | ok b =>
          simp only [Encoder.Encode, hj, http_NewRequest_invalid L method _ _ hv]
          exact ⟨_, rfl⟩
  · intro hp
    unfold Client.NewRequest URL.Parse
    rw [url_Parse_null L path hp]
  · intro v e hb hj hbase
    obtain ⟨base, hbase⟩ := Option.ne_none_iff_exists'.mp hbase
    obtain ⟨r, hr⟩ := URL_Parse_done L base path
    unfold Client.NewRequest
    rw [hbase, hb, hr]
    cases r with
    | error e0 => exact ⟨e0, rfl⟩
    | ok u =>
      simp only [Encoder.Encode, hj]
      exact ⟨e, rfl⟩

theorem C4_witness :
    (∃ e, Client.NewRequest demoLib demoClient [0] (ascii "/test")
      (some (DemoValue.text (ascii "x"))) = .done (none, some e)) ∧
    Client.NewRequest demoLib demoClient (ascii "GET") (ascii "/test" ++ [0])
      (some (DemoValue.text (ascii "x"))) =
      .done (none, some (.urlError "parse" (ascii "/test" ++ [0])
        (.other "net/url: invalid control character in URL"))) ∧
    (∃ e, Client.NewRequest demoLib demoClient (ascii "GET") (ascii "/test")
      (some DemoValue.func) = .done (none, some e)) :=
  ⟨(C4_newRequest_errors demoLib demoClient [0] (ascii "/test")
      (some (.text (ascii "x")))).1 (by decide) (by decide),
   (C4_newRequest_errors demoLib demoClient (ascii "GET") (ascii "/test" ++ [0])
      (some (.text (ascii "x")))).2.1 (by decide),
   (C4_newRequest_errors demoLib demoClient (ascii "GET") (ascii "/test")
      (some .func)).2.2 .func (.other "json: unsupported type: func() error") rfl rfl
      (by decide)⟩

/-- C4, as first stated, fails in two ways.  The client that `NewClientWithOptions`
builds from nil and an empty `ClientOptions` has a nil base address, and for it
`NewRequest` with the method `"\x00"`, or with a function value as body, faults on the
nil base address instead of returning an error.  And for the client of `NewClient` the
path `/test#\x00`, whose null byte follows the `#`, gives a request and no error. -/
theorem C4_counterexample :
    (NewClientWithOptions demoLib emptyHeap none { baseURL := none, userAgent := [] }).1.client
        (NewClientWithOptions demoLib emptyHeap none { baseURL := none, userAgent := [] }).2 =
      some nilClient ∧
    Client.NewRequest demoLib nilClient [0] (ascii "/test") (none : Option DemoValue) = .fault ∧
    Client.NewRequest demoLib nilClient (ascii "GET") (ascii "/test") (some DemoValue.func) =
      .fault ∧
    (NewClient demoLib emptyHeap none).1.client (NewClient demoLib emptyHeap none).2 =
      some demoClient ∧
    0 ∈ ascii "/test#" ++ [0] ∧
    Client.NewRequest demoLib demoClient (ascii "GET") (ascii "/test#" ++ [0])
      (none : Option DemoValue) = .done (some fragmentRequest, none) := by
  have h1 : URL.Parse demoLib demoClient.baseURL (ascii "/test#" ++ [0]) =
      .done (.ok fragmentURL) := rfl
  have h2 : URL.String fragmentURL =
      ascii "https://api.sandbox.transferwise.tech/test#%00" := rfl
  have h3 : http.NewRequest demoLib (ascii "GET")
      (ascii "https://api.sandbox.transferwise.tech/test#%00") none =
      .ok { fragmentRequest with Header := [] } := rfl
  refine ⟨rfl, rfl, rfl, rfl, by decide, ?_⟩
  unfold Client.NewRequest
  rw [h1]
  simp only
  rw [h2, h3]
  rfl

/-- C5: for a client with a base address, a valid method, a path that `url.Parse`
accepts (alone and resolved against the base address) and a non-nil body with JSON
encoding `enc` (HTML escaping off), `NewRequest` succeeds and the body of the request
is `enc` followed by one newline, the same for every body with this encoding; for a nil
body the request has no body. -/
theorem C5_request_body {H V D : Type} (L : Lib H V D) (c : Client H)
    (method path : Bytes) (base r u : URL)
    (hbase : c.baseURL = some base)
    (hm : validMethod (if method = [] then ascii "GET" else method) = true)
    (hp : URL.Parse L (some base) path = .done (.ok r))
    (hu : url.Parse L r.String = .ok u) :
    (∀ v enc, L.jsonMarshal false v = .ok enc →
      ∃ req, Client.NewRequest L c method path (some v) = .done (some req, none) ∧
        req.Body = some (enc ++ [10]) ∧
        ∀ w, L.jsonMarshal false w = .ok enc →
          Client.NewRequest L c method path (some w) = .done (some req, none)) ∧
    (∃ req, Client.NewRequest L c method path (none : Option V) = .done (some req, none) ∧
      req.Body = none) := by
  constructor
  · intro v enc hj
    have key : ∀ w, L.jsonMarshal false w = .ok enc →
        Client.NewRequest L c method path (some w) = .done (some
          { Method := if method = [] then ascii "GET" else method,
            URL := { u with Host := L.removeEmptyPort u.Host },
            Header :=
              (let h2 := Header.Set
                 (Header.Set [] (ascii "Accept") (ascii "application/json"))
                 (ascii "Content-Type") (ascii "application/json")
               if c.userAgent ≠ [] then Header.Set h2 (ascii "User-Agent") c.userAgent
               else h2),
            Body := some (enc ++ [10]),
            ContentLength := (enc ++ [10]).length,
            Host := L.removeEmptyPort u.Host, ctx := {} }, none) := by
      intro w hw
      unfold Client.NewRequest
      simp only [hbase, hp, Encoder.Encode, hw, http.NewRequest, hm, hu]
      by_cases hua : c.userAgent = [] <;> simp [hua]
    exact ⟨_, key v hj, rfl, key⟩
  · unfold Client.NewRequest
    simp only [hbase, hp, http.NewRequest, hm, hu]
    by_cases hua : c.userAgent = []
    · exact ⟨_, by simp [hua]; rfl, by simp⟩
    · exact ⟨_, by simp [hua]; rfl, by simp⟩

theorem C5_witness :
    (∃ req, Client.NewRequest demoLib demoClient (ascii "GET") (ascii "/test")
        (some (DemoValue.text (ascii "x"))) = .done (some req, none) ∧
      req.Body = some (ascii "\"x\"" ++ [10]) ∧
      ∀ w, demoLib.jsonMarshal false w = .ok (ascii "\"x\"") →
        Client.NewRequest demoLib demoClient (ascii "GET") (ascii "/test") (some w) =
          .done (some req, none)) ∧
    (∃ req, Client.NewRequest demoLib demoClient (ascii "GET") (ascii "/test")
        (none : Option DemoValue) = .done (some req, none) ∧ req.Body = none) :=
  have h := C5_request_body demoLib demoClient (ascii "GET") (ascii "/test")
    { Scheme := ascii "https", Host := ascii "api.sandbox.transferwise.tech" }
    { Scheme := ascii "https", Host := ascii "api.sandbox.transferwise.tech",
      Path := ascii "/test" }
    { Scheme := ascii "https", Host := ascii "api.sandbox.transferwise.tech",
      Path := ascii "/test" }
    rfl (by decide) rfl rfl
  ⟨h.1 (.text (ascii "x")) (ascii "\"x\"") rfl, h.2⟩

/-- C5, as first stated, fails in two ways.  For the client with a nil base address
that `NewClientWithOptions` builds from nil and an empty `ClientOptions`, `NewRequest`
with the valid method `GET`, the valid path `/test` and a serializable body faults
instead of succeeding.  And two bodies that differ only in an unexported field both
encode as the empty object, so they give the same request, and no way of decoding its
body yields a value equal to each of the two inputs. -/
theorem C5_counterexample :
    Client.NewRequest demoLib nilClient (ascii "GET") (ascii "/test")
      (some (DemoValue.text (ascii "x"))) = .fault ∧
    Client.NewRequest demoLib demoClient (ascii "GET") (ascii "/test")
      (some (DemoValue.hidden 5)) = .done (some hiddenRequest, none) ∧
    Client.NewRequest demoLib demoClient (ascii "GET") (ascii "/test")
      (some (DemoValue.hidden 6)) = .done (some hiddenRequest, none) ∧
    ∀ decode : Bytes → Option DemoValue,
      ¬ (hiddenRequest.Body.bind decode = some (DemoValue.hidden 5) ∧
         hiddenRequest.Body.bind decode = some (DemoValue.hidden 6)) := by
  refine ⟨rfl, rfl, rfl, ?_⟩
  intro decode h
  have h56 := h.1.symm.trans h.2
  simp at h56

/-- For a client whose `baseURL` is nil, `NewRequest` faults as soon as the path parses
to a reference without scheme: resolving it reads the nil receiver. -/
theorem NewRequest_nil_base {H V D : Type} (L : Lib H V D) (c : Client H)
    (method path : Bytes) (body : Option V) (ref : URL)
    (hb : c.baseURL = none) (hp : url.Parse L path = .ok ref) (hs : ref.Scheme = []) :
    Client.NewRequest L c method path body = .fault := by
  unfold Client.NewRequest URL.Parse URL.ResolveReference
  simp only [hb, hp, hs, ne_eq, not_true_eq_false, if_false]


/-! ### Execution and decoding -/

/-- The error `Do` returns for the error reported by `json.Unmarshal`. -/
theorem do_decoded {H V D : Type} (L : Lib H V D) (c : Client H) (ctx : Ctx) (req : Request)
    (hc : H) (resp : Response) (data : Bytes) (d : D)
    (hcl : c.client = some hc)
    (hex : L.httpDo hc { req with ctx := ctx } = (some resp, none))
    (hread : resp.readAll = (data, none)) (hclose : resp.close = none)
    (hdata : data ≠ []) :
    Client.Do L c (some ctx) (some req) (some d) =
      .done { resp := some resp,
              err := (match (L.jsonUnmarshal data d).2 with
                | none => none
                | some .EOF => none
                | some e => some (.wrap e "unable to parse API response")),
              v := some (L.jsonUnmarshal data d).1 } := by
  have hlen : data.length ≠ 0 := by
    intro h0
    exact hdata (List.length_eq_zero.mp h0)
  unfold Client.Do
  simp only [hcl, hex, hread, hclose, hlen, ne_eq, not_false_eq_true, if_true]
  rcases hj : L.jsonUnmarshal data d with ⟨d2, e⟩
  cases e with
  | none => rfl
  | some e => cases e <;> rfl

/-- C6, as the code has it: when the executor returns a response whose body is read
and closed without error, `Do` returns no error and leaves the destination untouched if
the destination is nil or the body is empty; for a non-nil destination and a non-empty
body `Do` returns the response, the destination holds what `json.Unmarshal` stored, and
`Do` returns no error exactly when `json.Unmarshal` reports no error or reports
`io.EOF`; any other decode error is returned wrapped as "unable to parse API
response". -/
theorem C6_do_decode {H V D : Type} (L : Lib H V D) (c : Client H) (ctx : Ctx)
    (req : Request) (hc : H) (resp : Response) (data : Bytes) (v : Option D)
    (hcl : c.client = some hc)
    (hex : L.httpDo hc { req with ctx := ctx } = (some resp, none))
    (hread : resp.readAll = (data, none)) (hclose : resp.close = none) :
    ((v = none ∨ data = []) →
      Client.Do L c (some ctx) (some req) v =
        .done { resp := some resp, err := none, v := v }) ∧
    (∀ d, v = some d → data ≠ [] →
      ∃ err, Client.Do L c (some ctx) (some req) v =
          .done { resp := some resp, err := err, v := some (L.jsonUnmarshal data d).1 } ∧
        (err = none ↔
          ((L.jsonUnmarshal data d).2 = none ∨ (L.jsonUnmarshal data d).2 = some .EOF)) ∧
        (∀ e, (L.jsonUnmarshal data d).2 = some e → e ≠ .EOF →
          err = some (.wrap e "unable to parse API response"))) := by
  constructor
  · intro h
    unfold Client.Do
    simp only [hcl, hex, hread, hclose]
    cases v with
    | none => rfl
    | some d =>
      rcases h with h | h
      · exact absurd h (by simp)
      · subst h
        rfl
  · intro d hv hdata
    subst hv
    refine ⟨_, do_decoded L c ctx req hc resp data d hcl hex hread hclose hdata, ?_, ?_⟩
    · rcases hj : (L.jsonUnmarshal data d).2 with _ | e
      · simp
      · cases e <;> simp
    · intro e he hne
      rw [he]
      cases e <;> first | rfl | exact absurd rfl hne

theorem C6_witness :
    Client.Do demoLib demoClient (some {}) (some demoRequest) (none : Option Foo) =
      .done { resp := some demoResponse, err := none, v := none } ∧
    (∃ err, Client.Do demoLib demoClient (some {}) (some demoRequest) (some { A := [] }) =
        .done { resp := some demoResponse, err := err,
                v := some (demoLib.jsonUnmarshal demoData { A := [] }).1 } ∧
      (err = none ↔
        ((demoLib.jsonUnmarshal demoData { A := [] }).2 = none ∨
         (demoLib.jsonUnmarshal demoData { A := [] }).2 = some .EOF)) ∧
      (∀ e, (demoLib.jsonUnmarshal demoData { A := [] }).2 = some e → e ≠ .EOF →
        err = some (.wrap e "unable to parse API response"))) :=
  ⟨(C6_do_decode demoLib demoClient {} demoRequest () demoResponse demoData none
      rfl rfl rfl rfl).1 (Or.inl rfl),
   (C6_do_decode demoLib demoClient {} demoRequest () demoResponse demoData
      (some { A := [] }) rfl rfl rfl rfl).2 { A := [] } rfl (by decide)⟩

/-- The decoder reports an error for a non-empty body (so the body did not decode), and
`Do` nevertheless returns no error: "no error exactly when the body decodes" fails. -/
theorem C6_counterexample :
    demoData ≠ [] ∧
    (eofLib.jsonUnmarshal demoData { A := [] }).2 = some .EOF ∧
    Client.Do eofLib demoClient (some {}) (some demoRequest) (some { A := [] }) =
      .done { resp := some demoResponse, err := none, v := some { A := [] } } ∧
    ¬ (∀ r, Client.Do eofLib demoClient (some {}) (some demoRequest) (some { A := [] }) =
        .done r → (r.err = none ↔ (eofLib.jsonUnmarshal demoData { A := [] }).2 = none)) := by
  refine ⟨by decide, rfl, by decide, ?_⟩
  intro h
  have h2 := h { resp := some demoResponse, err := none, v := some { A := [] } } (by decide)
  exact absurd (h2.mp rfl) (by decide)

/-- C7, as the code has it: when the executor succeeds and the response body is read
and closed without error, `Do` returns that response, whether or not it also returns an
error; when the executor succeeds and reading or closing the body fails, `Do` returns a
nil response and an error; when the executor reports an error, `Do` returns a nil
response and an error. -/
theorem C7_do_response {H V D : Type} (L : Lib H V D) (c : Client H) (ctx : Ctx)
    (req : Request) (hc : H) (v : Option D) (hcl : c.client = some hc) :
    (∀ resp, L.httpDo hc { req with ctx := ctx } = (some resp, none) →
      (resp.readAll.2 = none → resp.close = none →
        ∃ err dest, Client.Do L c (some ctx) (some req) v =
          .done { resp := some resp, err := err, v := dest }) ∧
      ((resp.readAll.2 ≠ none ∨ resp.close ≠ none) →
        ∃ err, Client.Do L c (some ctx) (some req) v =
          .done { resp := none, err := some err, v := v })) ∧
    (∀ oresp e, L.httpDo hc { req with ctx := ctx } = (oresp, some e) →
      ∃ err, Client.Do L c (some ctx) (some req) v =
        .done { resp := none, err := some err, v := v }) := by
  constructor
  · intro resp hex
    rcases hread : resp.readAll with ⟨data, rerr⟩
    constructor
    · intro hr hclose
      simp only at hr
      subst hr
      cases v with
      | none =>
        refine ⟨none, none, ?_⟩
        unfold Client.Do
        simp only [hcl, hex, hread, hclose]
      | some d =>
        by_cases hdata : data = []
        · refine ⟨none, some d, ?_⟩
          unfold Client.Do
          simp only [hcl, hex, hread, hclose, hdata]
          rfl
        · exact ⟨_, _, do_decoded L c ctx req hc resp data d hcl hex hread hclose hdata⟩
    · intro hfail
      unfold Client.Do
      simp only [hcl, hex, hread]
      cases rerr with
      | some e => exact ⟨_, rfl⟩
      | none =>
        cases hclose : resp.close with
        | some e => exact ⟨_, rfl⟩
        | none => simp [hclose] at hfail
  · intro oresp e hex
    unfold Client.Do
    simp only [hcl, hex]
    cases ctx.err with
    | none => exact ⟨_, rfl⟩
    | some t => exact ⟨_, rfl⟩

theorem C7_witness :
    (∃ err dest, Client.Do demoLib demoClient (some {}) (some demoRequest)
        (none : Option Foo) = .done { resp := some demoResponse, err := err, v := dest }) ∧
    (∃ err, Client.Do brokenBodyLib demoClient (some {}) (some demoRequest)
        (none : Option Foo) = .done { resp := none, err := some err, v := none }) :=
  ⟨((C7_do_response demoLib demoClient {} demoRequest () none rfl).1
      demoResponse rfl).1 rfl rfl,
   ((C7_do_response brokenBodyLib demoClient {} demoRequest () none rfl).1
      brokenResponse rfl).2 (Or.inl (by decide))⟩

/-- The executor succeeds, the body cannot be read, and `Do` returns a nil response. -/
theorem C7_counterexample :
    brokenBodyLib.httpDo () { demoRequest with ctx := {} } = (some brokenResponse, none) ∧
    Client.Do brokenBodyLib demoClient (some {}) (some demoRequest) (none : Option Foo) =
      .done { resp := none,
              err := some (.wrap (.other "unexpected EOF") "unable to read body"),
              v := none } := by
  decide



/-! ### Rates -/

theorem getElem?_first_of_two {α : Type} (l : List α) (a b : α) :
    (l ++ [a] ++ [b])[l.length]? = some a := by
  rw [List.append_assoc, List.getElem?_append_right (Nat.le_refl _)]
  simp

theorem getElem?_second_of_two {α : Type} (l : List α) (a b : α) :
    (l ++ [a] ++ [b])[(l ++ [a]).length]? = some b := by
  rw [List.getElem?_append_right (Nat.le_refl _)]
  simp

theorem client_congr {H : Type} (h h2 : Heap H) (p : Nat)
    (hc : h2.clients[p]? = h.clients[p]?)
    (hu : ∀ cell a, h.clients[p]? = some cell → cell.baseURL = some a →
      h2.urls[a]? = h.urls[a]?) :
    h2.client p = h.client p := by
  unfold Heap.client
  rw [hc]
  cases hcell : h.clients[p]? with
  | none => rfl
  | some cell =>
    cases hb : cell.baseURL with
    | none => simp only [hb]
    | some a => simp only [hb, hu cell a hcell hb]

theorem NewClient_eq {H V D : Type} (L : Lib H V D) (h : Heap H) (x : Option H) (u0 : URL)
    (hparse : url.Parse L SandboxURL = .ok u0) :
    ∃ k, NewClient L h x =
      ({ urls := h.urls ++ [u0],
         clients := h.clients ++
           [{ baseURL := some h.urls.length, userAgent := userAgent, client := some k }] },
       h.clients.length) := by
  unfold NewClient
  rw [hparse]
  exact ⟨_, rfl⟩

/-- C9: two calls of `NewClient` (with any executor arguments) allocate two distinct
clients; both have the base address parsed from `SandboxURL` and the default
user-agent; assigning the base address or the user-agent of either, or storing into the
URL object either points to, leaves the other client's base address and user-agent as
they were. -/
theorem C9_newClient_independent {H V D : Type} (L : Lib H V D) (h0 h1 h2 : Heap H)
    (x1 x2 : Option H) (p1 p2 : Nat) (u0 : URL)
    (hparse : url.Parse L SandboxURL = .ok u0)
    (e1 : NewClient L h0 x1 = (h1, p1)) (e2 : NewClient L h1 x2 = (h2, p2)) :
    p1 ≠ p2 ∧
    (∃ k, h2.client p1 = some { baseURL := some u0, userAgent := userAgent, client := some k }) ∧
    (∃ k, h2.client p2 = some { baseURL := some u0, userAgent := userAgent, client := some k }) ∧
    (∀ q, (h2.setBaseURL p1 q).client p2 = h2.client p2) ∧
    (∀ s, (h2.setUserAgent p1 s).client p2 = h2.client p2) ∧
    (∀ a u, (h2.clients[p1]?).bind (fun cell => cell.baseURL) = some a →
      (h2.storeURL a u).client p2 = h2.client p2) ∧
    (∀ q, (h2.setBaseURL p2 q).client p1 = h2.client p1) ∧
    (∀ s, (h2.setUserAgent p2 s).client p1 = h2.client p1) ∧
    (∀ a u, (h2.clients[p2]?).bind (fun cell => cell.baseURL) = some a →
      (h2.storeURL a u).client p1 = h2.client p1) := by
  obtain ⟨k1, hk1⟩ := NewClient_eq L h0 x1 u0 hparse
  rw [hk1] at e1
  simp only [Prod.mk.injEq] at e1
  obtain ⟨eh1, ep1⟩ := e1
  subst eh1
  obtain ⟨k2, hk2⟩ := NewClient_eq L _ x2 u0 hparse
  rw [hk2] at e2
  simp only [Prod.mk.injEq] at e2
  obtain ⟨eh2, ep2⟩ := e2
  subst eh2
  subst ep1
  subst ep2
  have hc1 := getElem?_first_of_two h0.clients
    ({ baseURL := some h0.urls.length, userAgent := userAgent, client := some k1 } :
      ClientCell H)
    { baseURL := some (h0.urls ++ [u0]).length, userAgent := userAgent, client := some k2 }
  have hc2 := getElem?_second_of_two h0.clients
    ({ baseURL := some h0.urls.length, userAgent := userAgent, client := some k1 } :
      ClientCell H)
    { baseURL := some (h0.urls ++ [u0]).length, userAgent := userAgent, client := some k2 }
  have hu1 := getElem?_first_of_two h0.urls u0 u0
  have hu2 := getElem?_second_of_two h0.urls u0 u0
  have hne : h0.clients.length ≠ (h0.clients ++
      [({ baseURL := some h0.urls.length, userAgent := userAgent, client := some k1 } :
        ClientCell H)]).length := by
    simp
  refine ⟨hne, ⟨k1, ?_⟩, ⟨k2, ?_⟩, ?_, ?_, ?_, ?_, ?_, ?_⟩
  · simp only [Heap.client, hc1, hu1]
  · simp only [Heap.client, hc2, hu2]
  · intro q
    apply client_congr
    · simp only [Heap.setBaseURL]
      rw [List.getElem?_modify_ne _ _ hne]
    · intro cell a _ _
      rfl
  · intro s
    apply client_congr
    · simp only [Heap.setUserAgent]
      rw [List.getElem?_modify_ne _ _ hne]
    · intro cell a _ _
      rfl
  · intro a u ha
    rw [hc1] at ha
    simp only [Option.some_bind, Option.some.injEq] at ha
    subst ha
    apply client_congr
    · rfl
    · intro cell a hcell hb
      rw [hc2] at hcell
      simp only [Option.some.injEq] at hcell
      subst hcell
      simp only [Option.some.injEq] at hb
      subst hb
      simp only [Heap.storeURL]
      rw [List.getElem?_set_ne]
      simp
  · intro q
    apply client_congr
    · simp only [Heap.setBaseURL]
      rw [List.getElem?_modify_ne _ _ (Ne.symm hne)]
    · intro cell a _ _
      rfl
  · intro s
    apply client_congr
    · simp only [Heap.setUserAgent]
      rw [List.getElem?_modify_ne _ _ (Ne.symm hne)]
    · intro cell a _ _
      rfl
  · intro a u ha
    rw [hc2] at ha
    simp only [Option.some_bind, Option.some.injEq] at ha
    subst ha
    apply client_congr
    · rfl
    · intro cell a hcell hb
      rw [hc1] at hcell
      simp only [Option.some.injEq] at hcell
      subst hcell
      simp only [Option.some.injEq] at hb
      subst hb
      simp only [Heap.storeURL]
      rw [List.getElem?_set_ne]
      simp

theorem C9_witness :
    (0 : Nat) ≠ 1 ∧
    (∃ k, (NewClient demoLib (NewClient demoLib emptyHeap none).1 (some ())).1.client 0 =
      some { baseURL := some demoBase, userAgent := userAgent, client := some k }) ∧
    (∃ k, (NewClient demoLib (NewClient demoLib emptyHeap none).1 (some ())).1.client 1 =
      some { baseURL := some demoBase, userAgent := userAgent, client := some k }) :=
  have h := C9_newClient_independent demoLib emptyHeap (NewClient demoLib emptyHeap none).1
    (NewClient demoLib (NewClient demoLib emptyHeap none).1 (some ())).1 none (some ()) 0 1
    demoBase rfl rfl rfl
  ⟨h.1, h.2.1, h.2.2.1⟩

end Transferwise
